import Mathlib

/-!
Verification development for the `number-line` library.

The repository contains two complete scale-engine designs sharing one
coordinate-transform shell:

* the *periodic* design (`src/lib/number-line.ts`): unit length follows a
  `sawtooth` of the magnification, unit value a `staircase`;
* the *subdivision* design (`src/unnamed/part_005`): a descending
  `subdivisionFallout` list with `above`/`within`/`last` regimes.

All JavaScript numbers are modelled as rationals (`ℚ`): every concrete input
appearing in the spec and tests is rational, and the algebraic laws under
scrutiny are stated "exactly in real arithmetic (up to floating-point
tolerance)", so exact `ℚ` arithmetic is the faithful idealisation.
`%` on JS numbers is the truncated remainder, modelled by `jsMod`/`Int.tmod`;
`Math.floor`/`Math.ceil`/`Math.trunc` are `⌊·⌋`/`⌈·⌉`/`jsTrunc`.

Label strategies are caller-supplied callbacks whose output does not affect
any claim under verification; tick-mark view models are modelled without the
`label` field (and without the engine back-reference of the view model).
-/

namespace NumberLineModel

/-- JS `Math.trunc` on a rational: rounding toward zero. -/
def jsTrunc (q : ℚ) : ℤ := if 0 ≤ q then ⌊q⌋ else ⌈q⌉

/-- JS `%` (truncated remainder) on rationals: `a % b = a - b * trunc(a / b)`. -/
def jsMod (a b : ℚ) : ℚ := a - b * (jsTrunc (a / b) : ℚ)

/-- JS `x || d` for a possibly-`undefined` number `x`: `undefined` and `0` are
falsy and give the default `d`. -/
def jsOr (x : Option ℚ) (d : ℚ) : ℚ :=
  match x with
  | none => d
  | some v => if v = 0 then d else v

/-- JS comparison `x <= 0` where `x` may be `undefined`; comparisons against
`undefined` are always false. -/
def jsLeZero (x : Option ℚ) : Bool :=
  match x with
  | none => false
  | some v => decide (v ≤ 0)

/-- JS-style check "supplied and `<= 1`" for a possibly-`undefined` number
(in `src/unnamed/part_005` the `undefined` case is consumed by the defaulting
branch before the `<= 1` comparison runs). -/
def jsLeOne (x : Option ℚ) : Bool :=
  match x with
  | none => false
  | some v => decide (v ≤ 1)

/-- ViewModel that describes what a tick mark looks like (the `label` field,
produced by the caller-supplied label strategy, is omitted from the model). -/
structure TickMark where
  /-- Height of the tick as governed by the tick mark pattern -/
  height : ℚ
  /-- Value of this tick mark -/
  value : ℚ
  /-- Position of this tick mark from the start -/
  position : ℚ
  /-- Index of this tick mark in the repeating tick mark pattern -/
  patternIndex : ℤ
deriving Repr, DecidableEq

/-- ViewModel that describes what a number line looks like (the back-reference
to the engine is omitted from the model). -/
structure NumberLineViewModel where
  /-- The gap at the start of number line before a tick mark begins -/
  offset : ℚ
  /-- The trailing space left between the last tick mark and the length -/
  leftoverSpace : ℚ
  /-- Gap between tick marks -/
  gap : ℚ
  /-- Array of tick marks over the length of this view model -/
  tickMarks : List TickMark
  /-- The length of this ruler view model -/
  length : ℚ
  /-- The value at the start of the number line -/
  startingValue : ℚ
  /-- The value at the end of the number line -/
  endingValue : ℚ
deriving Repr, DecidableEq

/-- Linearly maps a number from the first range to the second range
(`rangeMapper` in both sources). -/
def rangeMapper (x a b c d : ℚ) : ℚ := ((x - a) / (b - a)) * (d - c) + c

namespace Periodic

/-!
Shallow embedding of the periodic design, `src/lib/number-line.ts`.
-/

/-- Configurational description of the number line (`INumberLineOptions` of
`src/lib/number-line.ts`; `zoomPeriod`, `zoomFactor`, `initialDisplacement`
and `initialMagnification` are optional). -/
structure Options where
  pattern : List ℚ
  zoomPeriod : Option ℚ
  zoomFactor : Option ℚ
  breakpointLowerbound : ℚ
  breakpointUpperBound : ℚ
  initialDisplacement : Option ℚ
  initialMagnification : Option ℚ
deriving Repr, DecidableEq

/-- Options as stored by a constructed engine: `initialize()` overwrites
`this.options.zoomPeriod`/`zoomFactor` with their defaulted values, so a
live engine always holds concrete numbers for them. -/
structure StoredOptions where
  pattern : List ℚ
  zoomPeriod : ℚ
  zoomFactor : ℚ
  breakpointLowerbound : ℚ
  breakpointUpperBound : ℚ
deriving Repr, DecidableEq

/-- Generates a sawtooth wave based on the input parameters
(`sawtooth` in `src/lib/number-line.ts`). -/
def sawtooth (x lowerBound upperBound period : ℚ) : ℚ :=
  let amplitude := upperBound - lowerBound
  let normalizedX := jsMod x period / period
  lowerBound + amplitude * (normalizedX - (⌊normalizedX⌋ : ℚ))

/-- Calculates the y-coordinate of a point on a staircase
(`staircase` in `src/lib/number-line.ts`). -/
def staircase (x height period : ℚ) : ℚ :=
  let steps := ⌊|x| / period⌋ + 1
  (steps : ℚ) * height

/-- Returns a number whose value is limited to the given range
(`clamp` in `src/lib/number-line.ts`). -/
def clamp (value min_ max_ : ℚ) : ℚ := min (max value min_) max_

/-- Computes the next biggest number divisible by a given denominator
(`nextDivisibleValue` in `src/lib/number-line.ts`). -/
def nextDivisibleValue (numerator denominator : ℚ) : ℚ :=
  let remainder := jsMod numerator denominator
  if remainder = 0 then numerator
  else
    let lowerFactor := numerator - remainder
    lowerFactor + denominator

/-- Computes the previous smallest number divisible by a given denominator
(`previousDivisibleValue` in `src/lib/number-line.ts`; note the source
returns `Math.floor(numerator/denominator)` without re-multiplying). -/
def previousDivisibleValue (numerator denominator : ℚ) : ℚ :=
  (⌊numerator / denominator⌋ : ℚ)

/-- Engine state of the periodic design (`NumberLine` class of
`src/lib/number-line.ts`). -/
structure NumberLine where
  options : StoredOptions
  _unitLength : ℚ
  _unitValue : ℚ
  _magnification : ℚ
  _displacement : ℚ
  _biggestTickPatternValue : ℚ
deriving Repr, DecidableEq

/-- Number of tick marks in a unit (`get tickCount`). -/
def NumberLine.tickCount (nl : NumberLine) : ℕ := nl.options.pattern.length

/-- Zooms the number line to the specified magnification (`zoomTo`). -/
def zoomTo (nl : NumberLine) (magnification : ℚ) : NumberLine :=
  { nl with
    _magnification := magnification
    _unitLength := sawtooth magnification nl.options.breakpointLowerbound
      nl.options.breakpointUpperBound nl.options.zoomPeriod
    _unitValue := staircase magnification nl.options.zoomFactor nl.options.zoomPeriod }

/-- Simply sets the displacement of the number line (`panTo`). -/
def panTo (nl : NumberLine) (position : ℚ) : NumberLine :=
  { nl with _displacement := position }

/-- Increases/Decreases the displacement by the given delta (`panBy`). -/
def panBy (nl : NumberLine) (delta : ℚ) : NumberLine :=
  { nl with _displacement := nl._displacement + delta }

/-- Position of the given value in the number line (`positionOf`). -/
def positionOf (nl : NumberLine) (value : ℚ) : ℚ :=
  nl._displacement + (nl._unitLength / nl._unitValue) * value

/-- Calculates the value at a given position (`valueAt`). -/
def valueAt (nl : NumberLine) (position : ℚ) : ℚ :=
  (position + nl._displacement) / (nl._unitLength / nl._unitValue)

/-- Returns a value that represents the current scaled amount (`measure`). -/
def measure (nl : NumberLine) (length : ℚ) : ℚ :=
  nl._unitValue / nl._unitLength * length

/-- Zooms around a position by a specified amount (`zoomAround` of
`src/lib/number-line.ts`; the method returns nothing and performs no
bound check on the resulting magnification). -/
def zoomAround (nl : NumberLine) (position delta : ℚ) : NumberLine :=
  let valueAtHingePoint := valueAt nl position
  let nl1 := panTo nl 0
  let nl2 := zoomTo nl1 (nl1._magnification + delta)
  let newPositionForHingePoint := positionOf nl2 valueAtHingePoint
  let shift := newPositionForHingePoint - position
  panTo nl2 shift

/-- Checks if a range can fit within a given length or not (`isRangeFittable`;
note the silent endpoint swap when `end < start`). -/
def isRangeFittable (nl : NumberLine) (start_ end_ length : ℚ)
    (forUnitLength : Option ℚ) : Bool :=
  let se := if end_ < start_ then (end_, start_) else (start_, end_)
  let targetUnitLength :=
    match forUnitLength with
    | none => nl.options.breakpointLowerbound
    | some f => clamp f nl.options.breakpointLowerbound nl.options.breakpointUpperBound
  let rangeMeasure := se.2 - se.1
  let ratio := rangeMeasure / length
  let lowerUnitValue := ratio * targetUnitLength
  decide (jsMod lowerUnitValue nl.options.zoomFactor = 0)

/-- Computes the magnification and pan that fits a given range in a given
length (`rangeFit` of `src/lib/number-line.ts`).  The method body contains no
assignment to the engine's fields, so the embedding returns the
`(magnification, displacement)` pair together with the unchanged engine.
Note the silent endpoint swap when `end < start`: the source never throws. -/
def rangeFit (nl : NumberLine) (start_ end_ length : ℚ)
    (forUnitLength : Option ℚ) : (ℚ × ℚ) × NumberLine :=
  let se := if end_ < start_ then (end_, start_) else (start_, end_)
  let targetUnitLength :=
    match forUnitLength with
    | none => nl.options.breakpointLowerbound
    | some f => clamp f nl.options.breakpointLowerbound nl.options.breakpointUpperBound
  let rangeMeasure := se.2 - se.1
  let ratio := rangeMeasure / length
  let lowerUnitValue := ratio * targetUnitLength
  let divisibleByZoomFactor :=
    if jsMod lowerUnitValue nl.options.zoomFactor = 0 then
      previousDivisibleValue lowerUnitValue nl.options.zoomFactor
    else
      nextDivisibleValue lowerUnitValue nl.options.zoomFactor
  let magnificationBase :=
    (divisibleByZoomFactor / nl.options.zoomFactor - 1) * nl.options.zoomPeriod
  let magnificationOffset :=
    nl.options.zoomPeriod * (targetUnitLength - nl.options.breakpointLowerbound) /
      (nl.options.breakpointUpperBound - nl.options.breakpointLowerbound)
  let magnification := magnificationBase + magnificationOffset
  let derivedUnitValue := staircase magnification nl.options.zoomFactor nl.options.zoomPeriod
  let displacement := targetUnitLength / derivedUnitValue * se.1
  ((magnification, displacement), nl)

/-- Constructor plus `initialize()` of `src/lib/number-line.ts`: validation
(`zoomPeriod <= 0` and `zoomFactor <= 0` are checked *before* defaulting, and
`undefined <= 0` is false in JS), option defaulting via `||`, then the initial
`zoomTo` and `panTo`. -/
def create (opts : Options) : Except String NumberLine :=
  if opts.breakpointLowerbound > opts.breakpointUpperBound then
    .error "Breakpoint lower bound cannot be greater than breakpoint upper bound"
  else if jsLeZero opts.zoomPeriod then
    .error "Zoom step cannot be negative or zero"
  else if jsLeZero opts.zoomFactor then
    .error "Zoom factor cannot be negative or zero"
  else
    let biggest := opts.pattern.foldl max 0
    let stored : StoredOptions :=
      { pattern := opts.pattern
        zoomPeriod := jsOr opts.zoomPeriod 10
        zoomFactor := jsOr opts.zoomFactor 1
        breakpointLowerbound := opts.breakpointLowerbound
        breakpointUpperBound := opts.breakpointUpperBound }
    let nl0 : NumberLine :=
      { options := stored
        _unitLength := opts.breakpointLowerbound
        _unitValue := 0
        _magnification := 0
        _displacement := 0
        _biggestTickPatternValue := biggest }
    .ok (panTo (zoomTo nl0 (jsOr opts.initialMagnification 0))
      (jsOr opts.initialDisplacement 0))

/-- Tick-enumeration loop of `buildViewModel` in `src/lib/number-line.ts`:
each iteration pushes a tick and advances `(value, position, index)`; the
pattern index always advances by `+1`, wrapping to `0` past `tickCount - 1`
(`negativeTicksLeft` is decremented but never read in this variant). -/
def ticksLoop (pattern : List ℚ) (tc : ℕ) (tickValue tickGap : ℚ) :
    ℕ → ℚ → ℚ → ℤ → ℤ → List TickMark
  | 0, _, _, _, _ => []
  | n + 1, value, position, index, negativeTicksLeft =>
    { height := pattern.getD index.toNat 0
      value := value
      position := position
      patternIndex := index } ::
    ticksLoop pattern tc tickValue tickGap n (value + tickValue) (position + tickGap)
      (if index + 1 < (tc : ℤ) then index + 1 else 0) (negativeTicksLeft - 1)

/-- Builds a view model describing this number line (`buildViewModel` of
`src/lib/number-line.ts`). -/
def buildViewModel (nl : NumberLine) (length : ℚ) : NumberLineViewModel :=
  let tc := nl.tickCount
  let tickGap := nl._unitLength / (tc : ℚ)
  let unitLength := nl._unitLength
  let unitValue := nl._unitValue
  let tickValue := unitValue / (tc : ℚ)
  let fp : ℚ × ℤ × ℚ × ℤ :=  -- (firstTickMarkValue, firstTickMarkIndex, firstTickMarkPosition, totalNegativeTicks)
    if 0 ≤ nl._displacement then
      let tickCountsTillFirstTick : ℤ := ⌈nl._displacement / unitLength * (tc : ℚ)⌉
      ((tickCountsTillFirstTick : ℚ) * tickValue,
        Int.tmod tickCountsTillFirstTick (tc : ℤ),
        (tickCountsTillFirstTick : ℚ) * tickGap - nl._displacement,
        0)
    else
      let tickCountsTillFirstTick : ℤ := ⌊-nl._displacement / unitLength * (tc : ℚ)⌋
      ((-tickCountsTillFirstTick : ℚ) * tickValue,
        (if Int.tmod tickCountsTillFirstTick (tc : ℤ) = 0 then 0
          else (tc : ℤ) - Int.tmod tickCountsTillFirstTick (tc : ℤ)),
        |nl._displacement| - (tickCountsTillFirstTick : ℚ) * tickGap,
        tickCountsTillFirstTick)
  let firstTickMarkValue := fp.1
  let firstTickMarkIndex := fp.2.1
  let firstTickMarkPosition := fp.2.2.1
  let totalNegativeTicks := fp.2.2.2
  let totalTicks : ℤ := ⌊(length - firstTickMarkPosition) / tickGap⌋ + 1
  let leftoverSpace := tickGap - firstTickMarkPosition
  { offset := firstTickMarkPosition
    leftoverSpace := leftoverSpace
    gap := tickGap
    tickMarks := ticksLoop nl.options.pattern tc tickValue tickGap totalTicks.toNat
      firstTickMarkValue firstTickMarkPosition firstTickMarkIndex totalNegativeTicks
    length := length
    startingValue := valueAt nl 0
    endingValue := valueAt nl length }

end Periodic

namespace Subdivision

/-!
Shallow embedding of the subdivision design, `src/unnamed/part_005`.
-/

/-- Scale regime relative to the subdivision fallout
(`ScaleCategoryType = 'above'|'within'|'last'`). -/
inductive ScaleCategory where
  | above
  | within
  | last
deriving Repr, DecidableEq

/-- Configurational description of the number line (`INumberLineOptions` of
`src/unnamed/part_005`). -/
structure Options where
  pattern : List ℚ
  baseUnitValue : ℚ
  breakpoints : ℚ × ℚ
  stretchModulo : Option ℚ
  initialDisplacement : Option ℚ
  initialMagnification : Option ℚ
  subdivisionFallout : List ℚ
  maximumLengthOfLastSubdivision : ℚ
deriving Repr, DecidableEq

/-- Options as stored by a constructed engine: `initialize()` resolves
`stretchModulo` (default `1.3`), so a live engine holds a concrete number. -/
structure StoredOptions where
  pattern : List ℚ
  baseUnitValue : ℚ
  breakpoints : ℚ × ℚ
  stretchModulo : ℚ
  subdivisionFallout : List ℚ
  maximumLengthOfLastSubdivision : ℚ
deriving Repr, DecidableEq

/-- Engine state of the subdivision design (`NumberLine` class of
`src/unnamed/part_005`).  The zoom-sync fields `_lastZoomValue` and
`_lastZoomAddress` are definitely-assigned (`!`) in the source and only read
after being written (guarded by `_lastZoomValid`); they are modelled with
initial value `0`.  `_lastZoomScaleCategory` is read before first assignment
(compared against the current category), which in JS compares against
`undefined`; it is modelled as an `Option` starting at `none`. -/
structure NumberLine where
  options : StoredOptions
  _displacement : ℚ
  _magnification : ℚ
  _unitLength : ℚ
  _unitValue : ℚ
  _lastZoomValue : ℚ
  _lastZoomAddress : ℚ
  _lastZoomValid : Bool
  _lastZoomScaleCategory : Option ScaleCategory
deriving Repr, DecidableEq

/-- Checks that an array is sorted in strictly descending order
(`isSortedInStrictlyDescendingOrder`). -/
def isSortedInStrictlyDescendingOrder : List ℚ → Bool
  | [] => true
  | [_] => true
  | a :: b :: rest =>
    if b < a then isSortedInStrictlyDescendingOrder (b :: rest) else false

/-- Checks if supplied unit length is within breakpoint range
(`withinBreakpointRange`, stated on the stored options). -/
def withinBreakpointRange (o : StoredOptions) (l : ℚ) : Bool :=
  decide (o.breakpoints.1 ≤ l ∧ l ≤ o.breakpoints.2)

/-- Magnification at which the first subdivision becomes active:
`baseUnitValue / subdivisionFallout[0]` (the `startingMagnification` local of
`computeScale` and `unitScaleCategory`). -/
def startingMagnification (o : StoredOptions) : ℚ :=
  o.baseUnitValue / o.subdivisionFallout.getD 0 0

/-- Last (smallest) subdivision value,
`subdivisionFallout[subdivisionFallout.length - 1]`. -/
def lastFalloutValue (o : StoredOptions) : ℚ :=
  o.subdivisionFallout.getD (o.subdivisionFallout.length - 1) 0

/-- Helper for knowing where the number line resides relative to the
subdivision fallout (`unitScaleCategory`, phrased on options and
magnification — the method reads nothing else). -/
def unitScaleCategoryOf (o : StoredOptions) (m : ℚ) : ScaleCategory :=
  if o.subdivisionFallout = [] then .above
  else if m < startingMagnification o then .above
  else
    let subdivisionIndex := jsTrunc ((m - startingMagnification o) / o.stretchModulo)
    if subdivisionIndex < (o.subdivisionFallout.length : ℤ) then
      let subdivisionValue := o.subdivisionFallout.getD subdivisionIndex.toNat 0
      if subdivisionValue > lastFalloutValue o then .within else .last
    else .last

/-- Engine form of `unitScaleCategory`. -/
def unitScaleCategory (nl : NumberLine) : ScaleCategory :=
  unitScaleCategoryOf nl.options nl._magnification

/-- Unit value computed by `computeScale` as a pure function of options and
magnification: `baseUnitValue / magnification`, overwritten in the `within`
regime by the active subdivision value and in the `last` regime by the last
subdivision value. -/
def unitValueOf (o : StoredOptions) (m : ℚ) : ℚ :=
  match unitScaleCategoryOf o m with
  | .above => o.baseUnitValue / m
  | .within =>
    let subdivisionIndex := jsTrunc ((m - startingMagnification o) / o.stretchModulo)
    o.subdivisionFallout.getD subdivisionIndex.toNat 0
  | .last => lastFalloutValue o

/-- Unit length computed by `computeScale` as a pure function of options and
magnification: pinned at `breakpoints[0]` in the `above` regime, swept by
`rangeMapper` across the breakpoints in the `within` regime, and interpolated
up to (and clamped at) `maximumLengthOfLastSubdivision` in the `last`
regime. -/
def unitLengthOf (o : StoredOptions) (m : ℚ) : ℚ :=
  match unitScaleCategoryOf o m with
  | .above => o.breakpoints.1
  | .within =>
    let domainValue := 1 + jsMod (m - startingMagnification o) o.stretchModulo
    rangeMapper domainValue 1 (o.stretchModulo + 1) o.breakpoints.1 o.breakpoints.2
  | .last =>
    if o.maximumLengthOfLastSubdivision < o.breakpoints.1 then
      o.maximumLengthOfLastSubdivision
    else
      let lastMagnificationStart := startingMagnification o +
        o.stretchModulo * ((o.subdivisionFallout.length : ℚ) - 1)
      let t := (m - lastMagnificationStart) / o.stretchModulo
      let u := o.breakpoints.1 + t * (o.maximumLengthOfLastSubdivision - o.breakpoints.1)
      if u > o.maximumLengthOfLastSubdivision then o.maximumLengthOfLastSubdivision else u

/-- Internal method recomputing unit length and unit value from the current
magnification (`computeScale`; the method's two assignments are summarised by
the pure functions `unitValueOf` and `unitLengthOf`). -/
def computeScale (nl : NumberLine) : NumberLine :=
  { nl with
    _unitValue := unitValueOf nl.options nl._magnification
    _unitLength := unitLengthOf nl.options nl._magnification }

/-- Computes the value at specified distance from origin (`valueAt`; the
source method first calls `computeScale()` and then reads the refreshed
`unitLength`/`unitValue`). -/
def valueAt (nl : NumberLine) (location : ℚ) (wrtOrigin : Bool) : ℚ :=
  let c := computeScale nl
  if wrtOrigin then
    location / c._unitLength * c._unitValue
  else
    let unitCount := location / c._unitLength
    let valueSinceOrigin := unitCount * c._unitValue
    let valueOfDisplacement := c._displacement / c._unitLength * c._unitValue
    valueOfDisplacement + valueSinceOrigin

/-- Computes and returns the location of the given value along the number
line (`locationOf`). -/
def locationOf (nl : NumberLine) (value : ℚ) (wrtOrigin : Bool) : ℚ :=
  let c := computeScale nl
  if wrtOrigin then
    value / c._unitValue * c._unitLength
  else
    value / c._unitValue * c._unitLength - c._displacement

/-- Moves the ruler by a specified amount (`moveBy`). -/
def moveBy (nl : NumberLine) (delta : ℚ) : NumberLine :=
  { nl with _displacement := nl._displacement + delta, _lastZoomValid := false }

/-- Magnifies the entire ruler either in or out (`zoomAround` of
`src/unnamed/part_005`): rejects when `magnification + delta ≤ 1`, rolls the
magnification back when the `last` regime would exceed
`maximumLengthOfLastSubdivision`, compensates the displacement (outside the
`above` regime) so the anchored value stays put, and maintains the
cursor-sync bookkeeping. -/
def zoomAround (nl : NumberLine) (value address delta : ℚ) : Bool × NumberLine :=
  if nl._magnification + delta ≤ 1 then (false, nl)
  else
    let before := locationOf nl value false
    let nl1 := computeScale { nl with _magnification := nl._magnification + delta }
    let scaleCategory := unitScaleCategory nl1
    if scaleCategory = .last ∧
        nl1._unitLength > nl1.options.maximumLengthOfLastSubdivision then
      (false, computeScale { nl1 with _magnification := nl1._magnification - delta })
    else
      let after := locationOf nl1 value false
      let cancelDifference := after - before
      let nl2 :=
        if scaleCategory ≠ .above then
          { nl1 with _displacement := nl1._displacement + cancelDifference }
        else nl1
      let nl3 :=
        if some scaleCategory ≠ nl2._lastZoomScaleCategory then
          { nl2 with _lastZoomValid := false }
        else nl2
      let nl4 :=
        if nl3._lastZoomValid then
          if address = nl3._lastZoomAddress ∧ scaleCategory ≠ .above then
            let difference := value - nl3._lastZoomValue
            let correction := difference / nl3._unitValue * nl3._unitLength
            { nl3 with _displacement := nl3._displacement - correction }
          else
            { nl3 with _lastZoomValue := value, _lastZoomAddress := address }
        else
          { nl3 with
            _lastZoomValue := value
            _lastZoomAddress := address
            _lastZoomValid := true }
      (true, { nl4 with _lastZoomScaleCategory := some scaleCategory })

/-- Body of the `for` loop of `strechToFit` that walks
`subdivisionFallout[0 .. length-2]` looking for a subdivision whose induced
unit length is within breakpoint range; on a hit it returns the
`(unitLength, unitValue, magnification)` triple assigned by the source, else
it carries the `scaleCategory` local (overwritten on every iteration). -/
def strechToFitScan (o : StoredOptions) (valuePerLength offsetMagnification : ℚ) :
    List ℕ → ScaleCategory → (ℚ × ℚ × ℚ) ⊕ ScaleCategory
  | [], scaleCategory => .inr scaleCategory
  | i :: rest, _ =>
    let subdivisionValue := o.subdivisionFallout.getD i 0
    let currentUnitLength := subdivisionValue / valuePerLength
    if withinBreakpointRange o currentUnitLength then
      let startingMagnification_ := (i : ℚ) * o.stretchModulo
      let x1 := startingMagnification_
      let x2 := ((i : ℚ) + 1) * o.stretchModulo
      let y1 := o.breakpoints.1
      let y2 := o.breakpoints.2
      let slope := (y2 - y1) / (x2 - x1)
      let fractionalMagnification := (currentUnitLength - o.breakpoints.1) / slope
      .inl (currentUnitLength, subdivisionValue,
        offsetMagnification + startingMagnification_ + fractionalMagnification)
    else
      strechToFitScan o valuePerLength offsetMagnification rest
        (if currentUnitLength < o.breakpoints.1 then .last else .above)

/-- Stretches the entire number line so the last value is `finalValue`
(`strechToFit` of `src/unnamed/part_005`).  Note the source sets
`this._displacement = 0` *before* any reachability check, so the `false`
return still carries the zeroed displacement. -/
def strechToFit (nl : NumberLine) (finalValue length : ℚ) :
    Except String (Bool × NumberLine) :=
  if finalValue ≤ 0 then
    .error "Final value has to be positive. Consider using rangeFit instead"
  else
    let nl0 := { nl with _displacement := 0 }
    let valuePerLength := finalValue / length
    if nl0.options.subdivisionFallout = [] then
      let uL := nl0.options.breakpoints.1
      let uV := valuePerLength * uL
      .ok (true, { nl0 with
        _unitLength := uL
        _unitValue := uV
        _magnification := nl0.options.baseUnitValue / uV })
    else
      let offsetMagnification :=
        nl0.options.subdivisionFallout.getD 0 0 / nl0.options.baseUnitValue
      match strechToFitScan nl0.options valuePerLength offsetMagnification
          (List.range (nl0.options.subdivisionFallout.length - 1)) .above with
      | .inl (uL, uV, mag) =>
        .ok (true, { nl0 with _unitLength := uL, _unitValue := uV, _magnification := mag })
      | .inr scaleCategory =>
        if scaleCategory = .above then
          let uL := nl0.options.breakpoints.1
          let uV := valuePerLength * uL
          .ok (true, { nl0 with
            _unitLength := uL
            _unitValue := uV
            _magnification := nl0.options.baseUnitValue / uV })
        else if scaleCategory = .last then
          let lastValue := lastFalloutValue nl0.options
          let currentUnitLength := lastValue / valuePerLength
          if nl0.options.breakpoints.1 ≤ currentUnitLength ∧
              currentUnitLength ≤ nl0.options.maximumLengthOfLastSubdivision then
            let startingMagnification_ :=
              (nl0.options.subdivisionFallout.length : ℚ) * nl0.options.stretchModulo
            let x1 := startingMagnification_
            let x2 := ((nl0.options.subdivisionFallout.length : ℚ) + 1) *
              nl0.options.stretchModulo
            let y1 := nl0.options.breakpoints.1
            let y2 := nl0.options.maximumLengthOfLastSubdivision
            let slope := (y2 - y1) / (x2 - x1)
            let fractionalMagnification :=
              (currentUnitLength - nl0.options.breakpoints.1) / slope
            .ok (true, { nl0 with
              _unitValue := lastValue
              _unitLength := currentUnitLength
              _magnification := offsetMagnification + startingMagnification_ +
                fractionalMagnification })
          else
            .ok (false, nl0)
        else
          .ok (false, nl0)

/-- Fits a range within the base length (`rangeFit` of `src/unnamed/part_005`):
throws when `endValue <= startValue`, otherwise *mutates* the engine through
`strechToFit` and a displacement assignment (the boolean result of
`strechToFit` is ignored by the source). -/
def rangeFit (nl : NumberLine) (startValue endValue length : ℚ) :
    Except String NumberLine :=
  if endValue ≤ startValue then
    .error "Ending value has to be greater than starting value"
  else
    let difference := endValue - startValue
    match strechToFit nl difference length with
    | .error e => .error e
    | .ok (_, nl1) => .ok { nl1 with _displacement := locationOf nl1 startValue true }

/-- Constructor plus `initialize()` of `src/unnamed/part_005`: defaulting of
`initialDisplacement`/`initialMagnification`/`stretchModulo`, validation of
the initial magnification, stretch modulo and subdivision fallout, then the
initial `computeScale`. -/
def create (opts : Options) : Except String NumberLine :=
  let initialDisplacement := opts.initialDisplacement.getD 0
  let initialMagnification := opts.initialMagnification.getD 1
  if initialMagnification < 0 then
    .error "Initial Magnfication can never be negative. Try a number between 0 and 1 if you want to zoom out"
  else if jsLeOne opts.stretchModulo then
    .error "Stretch modulo cannot be <=1"
  else if ¬ isSortedInStrictlyDescendingOrder opts.subdivisionFallout then
    .error "Subdivision fallout is not sorted in descending order"
  else if opts.subdivisionFallout ≠ [] ∧
      opts.subdivisionFallout.getD (opts.subdivisionFallout.length - 1) 0 ≤ 0 then
    .error "Last value of subdivision fallout cannot be 0 or negative"
  else if opts.subdivisionFallout ≠ [] ∧
      opts.subdivisionFallout.getD 0 0 > opts.baseUnitValue then
    .error "First subdivision cannot be greater than base unit length"
  else
    let stored : StoredOptions :=
      { pattern := opts.pattern
        baseUnitValue := opts.baseUnitValue
        breakpoints := opts.breakpoints
        stretchModulo := opts.stretchModulo.getD (13 / 10)
        subdivisionFallout := opts.subdivisionFallout
        maximumLengthOfLastSubdivision := opts.maximumLengthOfLastSubdivision }
    .ok (computeScale
      { options := stored
        _displacement := initialDisplacement
        _magnification := initialMagnification
        _unitLength := -1
        _unitValue := -1
        _lastZoomValue := 0
        _lastZoomAddress := 0
        _lastZoomValid := false
        _lastZoomScaleCategory := none })

/-- Checks if a number is actually zero (`isActuallyZero`). -/
def isActuallyZero (n : ℚ) : Bool := decide (|n| = 0)

/-- Tick-enumeration loop of `buildViewModel` in `src/unnamed/part_005`:
while ticks from the negative run remain (`negativeTicksLeft > 0`) the pattern
index counts down (wrapping below `0` to `tickCount - 1`), afterwards it
counts up (wrapping at `tickCount` to `0`). -/
def ticksLoop (pattern : List ℚ) (tc : ℕ) (tickValue tickGap : ℚ) :
    ℕ → ℚ → ℚ → ℤ → ℤ → List TickMark
  | 0, _, _, _, _ => []
  | n + 1, value, position, index, negativeTicksLeft =>
    { height := pattern.getD index.toNat 0
      value := if isActuallyZero value then 0 else value
      position := position
      patternIndex := index } ::
    (let indexIncrementer : ℤ := if negativeTicksLeft > 0 then -1 else 1
     let index1 := index + indexIncrementer
     let index2 := if index1 < 0 then (tc : ℤ) - 1
       else if index1 ≥ (tc : ℤ) then 0 else index1
     ticksLoop pattern tc tickValue tickGap n (value + tickValue)
       (position + tickGap) index2 (negativeTicksLeft - 1))

/-- Builds a view model describing this number line (`buildViewModel` of
`src/unnamed/part_005`). -/
def buildViewModel (nl : NumberLine) (length : ℚ) : NumberLineViewModel :=
  let c := computeScale nl
  let tc := c.options.pattern.length
  let tickGap := c._unitLength / (tc : ℚ)
  let unitLength := c._unitLength
  let unitValue := c._unitValue
  let tickValue := unitValue / (tc : ℚ)
  let fp : ℚ × ℤ × ℤ × ℤ :=  -- (firstTickMarkValue, firstTickMarkIndex, totalNegativeTicks, tickCountsTillFirstTick)
    if 0 ≤ c._displacement then
      let tickCountsTillFirstTick : ℤ := ⌈c._displacement / unitLength * (tc : ℚ)⌉
      ((tickCountsTillFirstTick : ℚ) * tickValue,
        Int.tmod tickCountsTillFirstTick (tc : ℤ),
        0,
        tickCountsTillFirstTick)
    else
      let tickCountsTillFirstTick : ℤ := ⌊c._displacement / unitLength * (tc : ℚ)⌋
      ((tickCountsTillFirstTick : ℚ) * tickValue,
        Int.tmod (-tickCountsTillFirstTick) (tc : ℤ),
        -tickCountsTillFirstTick,
        tickCountsTillFirstTick)
  let firstTickMarkValue := fp.1
  let firstTickMarkIndex := fp.2.1
  let totalNegativeTicks := fp.2.2.1
  let tickCountsTillFirstTick := fp.2.2.2
  let firstTickMarkPosition := (tickCountsTillFirstTick : ℚ) * tickGap - c._displacement
  let totalTicks : ℤ := ⌊(length - firstTickMarkPosition) / tickGap⌋
  let leftoverSpace := length - (totalTicks : ℚ) * tickGap
  let firstValue := valueAt nl 0 false
  let endValue := valueAt nl length false
  { offset := firstTickMarkPosition
    leftoverSpace := leftoverSpace
    gap := tickGap
    tickMarks := ticksLoop c.options.pattern tc tickValue tickGap totalTicks.toNat
      firstTickMarkValue firstTickMarkPosition firstTickMarkIndex totalNegativeTicks
    length := length
    startingValue := if isActuallyZero firstValue then 0 else firstValue
    endingValue := if isActuallyZero endValue then 0 else endValue }

end Subdivision

/-!
Concrete engine states used by the theorems below.  Each is written as an
explicit record and proved reachable from the constructor by an accompanying
lemma (`createA_ok` etc.) in the theorem section.
-/

/-- Tick pattern used throughout the repository's examples and tests. -/
def p10 : List ℚ := [3, 1, 1, 1, 1, 2, 1, 1, 1, 1]

/-- Periodic configuration with `zoomFactor = 10`, `zoomPeriod = 10` and the
default initial magnification `0`: it yields `unitLength = 100` and
`unitValue = 10`, the "unit value 10 per unit length 100" scale named by the
spec's concrete scenario. -/
def optsA : Periodic.Options :=
  { pattern := p10
    zoomPeriod := some 10
    zoomFactor := some 10
    breakpointLowerbound := 100
    breakpointUpperBound := 150
    initialDisplacement := none
    initialMagnification := none }

/-- Engine produced by `Periodic.create optsA`. -/
def nlA : Periodic.NumberLine :=
  { options :=
      { pattern := p10
        zoomPeriod := 10
        zoomFactor := 10
        breakpointLowerbound := 100
        breakpointUpperBound := 150 }
    _unitLength := 100
    _unitValue := 10
    _magnification := 0
    _displacement := 0
    _biggestTickPatternValue := 3 }

/-- Periodic configuration from the spec's concrete scenario with
`zoomPeriod`/`zoomFactor` omitted (defaulting to `10`/`1`) and initial
magnification `1`. -/
def optsB : Periodic.Options :=
  { pattern := p10
    zoomPeriod := none
    zoomFactor := none
    breakpointLowerbound := 100
    breakpointUpperBound := 150
    initialDisplacement := none
    initialMagnification := some 1 }

/-- Engine produced by `Periodic.create optsB`:
`unitLength = sawtooth 1 = 105`, `unitValue = staircase 1 = 1`. -/
def nlB : Periodic.NumberLine :=
  { options :=
      { pattern := p10
        zoomPeriod := 10
        zoomFactor := 1
        breakpointLowerbound := 100
        breakpointUpperBound := 150 }
    _unitLength := 105
    _unitValue := 1
    _magnification := 1
    _displacement := 0
    _biggestTickPatternValue := 3 }

/-- Subdivision configuration with an empty fallout (every magnification is in
the `above` regime) and initial magnification `2`. -/
def optsS0 : Subdivision.Options :=
  { pattern := p10
    baseUnitValue := 100
    breakpoints := (100, 150)
    stretchModulo := none
    initialDisplacement := none
    initialMagnification := some 2
    subdivisionFallout := []
    maximumLengthOfLastSubdivision := 500 }

/-- Engine produced by `Subdivision.create optsS0`. -/
def nlS0 : Subdivision.NumberLine :=
  { options :=
      { pattern := p10
        baseUnitValue := 100
        breakpoints := (100, 150)
        stretchModulo := 13 / 10
        subdivisionFallout := []
        maximumLengthOfLastSubdivision := 500 }
    _displacement := 0
    _magnification := 2
    _unitLength := 100
    _unitValue := 50
    _lastZoomValue := 0
    _lastZoomAddress := 0
    _lastZoomValid := false
    _lastZoomScaleCategory := none }

/-- Subdivision configuration as `optsS0` but at the default initial
magnification `1`. -/
def optsS1 : Subdivision.Options :=
  { pattern := p10
    baseUnitValue := 100
    breakpoints := (100, 150)
    stretchModulo := none
    initialDisplacement := none
    initialMagnification := none
    subdivisionFallout := []
    maximumLengthOfLastSubdivision := 500 }

/-- Engine produced by `Subdivision.create optsS1`. -/
def nlS1 : Subdivision.NumberLine :=
  { options :=
      { pattern := p10
        baseUnitValue := 100
        breakpoints := (100, 150)
        stretchModulo := 13 / 10
        subdivisionFallout := []
        maximumLengthOfLastSubdivision := 500 }
    _displacement := 0
    _magnification := 1
    _unitLength := 100
    _unitValue := 100
    _lastZoomValue := 0
    _lastZoomAddress := 0
    _lastZoomValid := false
    _lastZoomScaleCategory := none }

/-- Subdivision configuration with fallout `[200, 100]`, a small
`maximumLengthOfLastSubdivision` (so some targets are unreachable), and a
nonzero initial displacement `50`. -/
def optsS2 : Subdivision.Options :=
  { pattern := p10
    baseUnitValue := 200
    breakpoints := (100, 150)
    stretchModulo := none
    initialDisplacement := some 50
    initialMagnification := none
    subdivisionFallout := [200, 100]
    maximumLengthOfLastSubdivision := 120 }

/-- Engine produced by `Subdivision.create optsS2` (magnification `1` lies in
the `within` regime: `startingMagnification = 200/200 = 1`). -/
def nlS2 : Subdivision.NumberLine :=
  { options :=
      { pattern := p10
        baseUnitValue := 200
        breakpoints := (100, 150)
        stretchModulo := 13 / 10
        subdivisionFallout := [200, 100]
        maximumLengthOfLastSubdivision := 120 }
    _displacement := 50
    _magnification := 1
    _unitLength := 100
    _unitValue := 200
    _lastZoomValue := 0
    _lastZoomAddress := 0
    _lastZoomValid := false
    _lastZoomScaleCategory := none }

/-- Subdivision configuration with the example fallout
`[200, 100, 50, 20, 10]` of the source documentation, at initial
magnification `6` (inside the `within` regime). -/
def optsS3 : Subdivision.Options :=
  { pattern := p10
    baseUnitValue := 1000
    breakpoints := (100, 150)
    stretchModulo := none
    initialDisplacement := none
    initialMagnification := some 6
    subdivisionFallout := [200, 100, 50, 20, 10]
    maximumLengthOfLastSubdivision := 500 }

/-- Engine produced by `Subdivision.create optsS3`
(`startingMagnification = 1000/200 = 5`, subdivision index
`trunc((6-5)/1.3) = 0`, unit value `200`, unit length
`rangeMapper (1 + (1 % 1.3)) 1 2.3 100 150 = 1800/13`). -/
def nlS3 : Subdivision.NumberLine :=
  { options :=
      { pattern := p10
        baseUnitValue := 1000
        breakpoints := (100, 150)
        stretchModulo := 13 / 10
        subdivisionFallout := [200, 100, 50, 20, 10]
        maximumLengthOfLastSubdivision := 500 }
    _displacement := 0
    _magnification := 6
    _unitLength := 1800 / 13
    _unitValue := 200
    _lastZoomValue := 0
    _lastZoomAddress := 0
    _lastZoomValid := false
    _lastZoomScaleCategory := none }

/-- Net pattern-index drift after `i` iterations of the subdivision tick loop
started with `negativeTicksLeft = neg`: each iteration moves the index by
`-1` while `neg` (decremented every iteration) is still positive, by `+1`
afterwards.  Used to specify `Subdivision.ticksLoop`. -/
def stepSum : ℤ → ℕ → ℤ
  | _, 0 => 0
  | neg, i + 1 => (if neg > 0 then (-1 : ℤ) else 1) + stepSum (neg - 1) i

/-!
Theorems.  First the reachability lemmas for the concrete engines, then
general lemmas about the numeric helpers and the two designs, then one
theorem (plus witness/counterexample where required) per claim.
-/

/-- Lemma: `nlA` is the engine constructed from `optsA`. -/
theorem createA_ok : Periodic.create optsA = .ok nlA := by
  norm_num [Periodic.create, Periodic.zoomTo, Periodic.panTo, Periodic.sawtooth,
    Periodic.staircase, jsLeZero, jsOr, jsMod, jsTrunc, optsA, nlA, p10, List.foldl]

/-- Lemma: `nlB` is the engine constructed from `optsB`. -/
theorem createB_ok : Periodic.create optsB = .ok nlB := by
  norm_num [Periodic.create, Periodic.zoomTo, Periodic.panTo, Periodic.sawtooth,
    Periodic.staircase, jsLeZero, jsOr, jsMod, jsTrunc, optsB, nlB, p10, List.foldl]

/-- Lemma: `nlS0` is the engine constructed from `optsS0`. -/
theorem createS0_ok : Subdivision.create optsS0 = .ok nlS0 := by
  norm_num [Subdivision.create, Subdivision.computeScale, Subdivision.unitValueOf,
    Subdivision.unitLengthOf, Subdivision.unitScaleCategoryOf,
    Subdivision.isSortedInStrictlyDescendingOrder, jsLeOne, jsMod, jsTrunc,
    optsS0, nlS0, p10]

/-- Lemma: `nlS1` is the engine constructed from `optsS1`. -/
theorem createS1_ok : Subdivision.create optsS1 = .ok nlS1 := by
  norm_num [Subdivision.create, Subdivision.computeScale, Subdivision.unitValueOf,
    Subdivision.unitLengthOf, Subdivision.unitScaleCategoryOf,
    Subdivision.isSortedInStrictlyDescendingOrder, jsLeOne, jsMod, jsTrunc,
    optsS1, nlS1, p10]

/-- Lemma: `nlS2` is the engine constructed from `optsS2`. -/
theorem createS2_ok : Subdivision.create optsS2 = .ok nlS2 := by
  norm_num [Subdivision.create, Subdivision.computeScale, Subdivision.unitValueOf,
    Subdivision.unitLengthOf, Subdivision.unitScaleCategoryOf,
    Subdivision.startingMagnification, Subdivision.lastFalloutValue, rangeMapper,
    Subdivision.isSortedInStrictlyDescendingOrder, jsLeOne, jsMod, jsTrunc,
    optsS2, nlS2, p10, List.cons_ne_nil]

/-- C1.  The periodic design (`src/lib/number-line.ts`) violates the
round-trip law at any nonzero displacement: on the engine `nlA`
(`unitLength = 100`, `unitValue = 10`) panned to displacement `130`,
`valueAt(positionOf(0))` evaluates to `26`, not `0` — `positionOf` *adds* the
displacement (`d + (uL/uV)·v`) while `valueAt` adds it again
(`(p + d)/(uL/uV)`), so the round trip returns `v + 2·d·uV/uL`. -/
theorem c1_roundtrip_eval :
    Periodic.valueAt (Periodic.panTo nlA 130)
      (Periodic.positionOf (Periodic.panTo nlA 130) 0) = 26 := by
  norm_num [Periodic.valueAt, Periodic.positionOf, Periodic.panTo, nlA]

/-- Lemma (support for C1): the subdivision design satisfies the round-trip
law at every engine state with nonzero unit length and unit value — its
`locationOf` subtracts the displacement that `valueAt` adds back. -/
theorem subdivision_roundtrip (nl : Subdivision.NumberLine) (v : ℚ)
    (hL : (Subdivision.computeScale nl)._unitLength ≠ 0)
    (hV : (Subdivision.computeScale nl)._unitValue ≠ 0) :
    Subdivision.valueAt nl (Subdivision.locationOf nl v false) false = v := by
  simp only [Subdivision.valueAt, Subdivision.locationOf, Subdivision.computeScale] at *
  field_simp
  ring

/-- Witness for `subdivision_roundtrip` at a concrete state. -/
theorem subdivision_roundtrip_witness :
    Subdivision.valueAt nlS3 (Subdivision.locationOf nlS3 7 false) false = 7 := by
  refine subdivision_roundtrip nlS3 7 ?_ ?_ <;>
    norm_num [Subdivision.computeScale, Subdivision.unitValueOf, Subdivision.unitLengthOf,
      Subdivision.unitScaleCategoryOf, Subdivision.startingMagnification,
      Subdivision.lastFalloutValue, rangeMapper, jsMod, jsTrunc, nlS3, List.cons_ne_nil]

/-- C9 (counterexample).  With the spec scenario's configuration — pattern
`p10`, breakpoints `100`/`150`, `zoomPeriod`/`zoomFactor` left at their
defaults — at magnification `1` and displacement `0` the periodic engine has
`unitLength = sawtooth 1 = 105` and `unitValue = staircase 1 = 1`, so
`valueAt(100) = 20/21`, not `10` as the claim states (the repository's own
test suite for the legacy base-coverage variant likewise expects
`valueAt(100) == 1`, not `10`). -/
theorem c9_counterexample : Periodic.valueAt nlB 100 ≠ 10 := by
  norm_num [Periodic.valueAt, nlB]

/-- C9 (amended).  At the engine state the claim itself describes — unit
value `10` per unit length `100` (obtained from `zoomFactor = 10`,
`zoomPeriod = 10` at the default magnification `0`) and displacement `0` —
all five quoted evaluations hold: `valueAt(100) = 10`, `valueAt(1000) = 100`,
`valueAt(-500) = -50`, and after `panBy(130)`: `valueAt(0) = 13` and
`valueAt(10000) = 1013`. -/
theorem c9_values :
    Periodic.valueAt nlA 100 = 10 ∧
    Periodic.valueAt nlA 1000 = 100 ∧
    Periodic.valueAt nlA (-500) = -50 ∧
    Periodic.valueAt (Periodic.panBy nlA 130) 0 = 13 ∧
    Periodic.valueAt (Periodic.panBy nlA 130) 10000 = 1013 := by
  norm_num [Periodic.valueAt, Periodic.panBy, nlA]

/-- C3 (counterexample).  The periodic design's `zoomAround` performs no
bound check: zooming the magnification-`1` engine `nlB` by `-2` (which the
claim says must be rejected because `1 + (-2) ≤ 0`) simply applies the change
and leaves the magnification at `-1`. -/
theorem c3_counterexample :
    (Periodic.zoomAround nlB 0 (-2))._magnification = -1 ∧
    nlB._magnification = 1 := by
  constructor
  · norm_num [Periodic.zoomAround, Periodic.zoomTo, Periodic.panTo,
      Periodic.valueAt, Periodic.positionOf, nlB]
  · norm_num [nlB]

/-- C4 (counterexample).  The periodic design's `rangeFit` never fails: with
`end < start` it silently swaps the endpoints (the call on `(40, 10)` returns
exactly the result of the call on `(10, 40)`), and with `end == start` it
also completes, returning the concrete pair `(-10, 2000)` on `nlB`. -/
theorem c4_counterexample :
    Periodic.rangeFit nlB 40 10 100 none = Periodic.rangeFit nlB 10 40 100 none ∧
    (Periodic.rangeFit nlB 40 40 100 none).1 = (-10, 2000) := by
  constructor
  · norm_num [Periodic.rangeFit]
  · norm_num [Periodic.rangeFit, Periodic.clamp, Periodic.previousDivisibleValue,
      Periodic.nextDivisibleValue, Periodic.staircase, jsMod, jsTrunc, nlB]

/-- C5 (counterexample).  The subdivision design's `rangeFit` is not a pure
query: on `nlS1` (magnification `1`, displacement `0`) the call
`rangeFit(5, 15, 100)` succeeds and leaves the engine at magnification `10`
and displacement `50`. -/
theorem c5_counterexample :
    (Subdivision.rangeFit nlS1 5 15 100).map
      (fun nl => (nl._magnification, nl._displacement)) = Except.ok (10, 50) ∧
    nlS1._magnification = 1 ∧ nlS1._displacement = 0 := by
  refine ⟨?_, by norm_num [nlS1], by norm_num [nlS1]⟩
  norm_num [Subdivision.rangeFit, Subdivision.strechToFit, Subdivision.locationOf,
    Subdivision.computeScale, Subdivision.unitValueOf, Subdivision.unitLengthOf,
    Subdivision.unitScaleCategoryOf, Except.map, nlS1]

/-- C6 (counterexample).  `strechToFit` is not atomic on failure: on `nlS2`
(displacement `50`) the unreachable target `strechToFit(300, 100)` returns
`false`, and the returned state keeps magnification/unit length/unit value
but has displacement reset to `0` (the source zeroes it before the
reachability check). -/
theorem c6_counterexample :
    (Subdivision.strechToFit nlS2 300 100).map
      (fun r => (r.1, r.2._displacement, r.2._magnification)) =
      Except.ok (false, 0, 1) ∧
    nlS2._displacement = 50 := by
  refine ⟨?_, by norm_num [nlS2]⟩
  norm_num [Subdivision.strechToFit, Subdivision.strechToFitScan,
    Subdivision.withinBreakpointRange, Subdivision.lastFalloutValue,
    List.range_succ, Except.map, nlS2, List.cons_ne_nil]
  rfl

/-- C2 (counterexample).  In the subdivision design's `above` regime the
displacement is not compensated: on `nlS0` (empty fallout, so every state is
`above`; magnification `2`, `valueAt(100) = 50`) the call
`zoomAround(50, 100, 1)` succeeds, yet afterwards `valueAt(100) = 100/3 ≠ 50`
— the anchored value does move. -/
theorem c2_counterexample :
    (Subdivision.zoomAround nlS0 50 100 1).1 = true ∧
    Subdivision.valueAt nlS0 100 false = 50 ∧
    Subdivision.valueAt (Subdivision.zoomAround nlS0 50 100 1).2 100 false = 100 / 3 ∧
    (100 / 3 : ℚ) ≠ 50 := by
  refine ⟨?_, ?_, ?_, by norm_num⟩ <;>
    norm_num [Subdivision.zoomAround, Subdivision.valueAt, Subdivision.locationOf,
      Subdivision.computeScale, Subdivision.unitValueOf, Subdivision.unitLengthOf,
      Subdivision.unitScaleCategoryOf, Subdivision.unitScaleCategory, nlS0]

/-- Lemma: `nlS3` is the engine constructed from `optsS3`. -/
theorem createS3_ok : Subdivision.create optsS3 = .ok nlS3 := by
  norm_num [Subdivision.create, Subdivision.computeScale, Subdivision.unitValueOf,
    Subdivision.unitLengthOf, Subdivision.unitScaleCategoryOf,
    Subdivision.startingMagnification, Subdivision.lastFalloutValue, rangeMapper,
    Subdivision.isSortedInStrictlyDescendingOrder, jsLeOne, jsMod, jsTrunc,
    optsS3, nlS3, p10, List.cons_ne_nil]

/-- Lemma: for a nonnegative dividend and positive divisor the JS remainder
is nonnegative (it agrees with the floored remainder there). -/
theorem jsMod_nonneg (a b : ℚ) (ha : 0 ≤ a) (hb : 0 < b) : 0 ≤ jsMod a b := by
  have hq : 0 ≤ a / b := div_nonneg ha hb.le
  have hcancel : b * (a / b) = a := by field_simp
  have hfr := Int.fract_nonneg (a / b)
  rw [Int.fract] at hfr
  have : jsMod a b = b * (a / b - (⌊a / b⌋ : ℚ)) := by
    rw [jsMod, jsTrunc, if_pos hq, mul_sub, hcancel]
  rw [this]
  exact mul_nonneg hb.le hfr

/-- Lemma: for a nonnegative dividend and positive divisor the JS remainder
is below the divisor. -/
theorem jsMod_lt (a b : ℚ) (ha : 0 ≤ a) (hb : 0 < b) : jsMod a b < b := by
  have hq : 0 ≤ a / b := div_nonneg ha hb.le
  have hcancel : b * (a / b) = a := by field_simp
  have hfr := Int.fract_lt_one (a / b)
  rw [Int.fract] at hfr
  have : jsMod a b = b * (a / b - (⌊a / b⌋ : ℚ)) := by
    rw [jsMod, jsTrunc, if_pos hq, mul_sub, hcancel]
  rw [this]
  calc b * (a / b - (⌊a / b⌋ : ℚ)) < b * 1 := by
        exact mul_lt_mul_of_pos_left hfr hb
    _ = b := mul_one b

/-- Lemma: the sawtooth stays within `[lowerBound, upperBound]` for every
input, period included degenerate ones — its ramp factor is a fractional
part, which lies in `[0, 1)`. -/
theorem sawtooth_bounds (x lb ub T : ℚ) (h : lb ≤ ub) :
    lb ≤ Periodic.sawtooth x lb ub T ∧ Periodic.sawtooth x lb ub T ≤ ub := by
  have h0 := Int.fract_nonneg (jsMod x T / T)
  have h1 := (Int.fract_lt_one (jsMod x T / T)).le
  rw [Int.fract] at h0 h1
  have hamp : 0 ≤ ub - lb := sub_nonneg.mpr h
  constructor
  · have := mul_nonneg hamp h0
    simp only [Periodic.sawtooth]
    linarith
  · have := mul_le_of_le_one_right hamp h1
    simp only [Periodic.sawtooth]
    linarith

/-- Lemma: a strictly descending list has strictly smaller entries at larger
indices. -/
theorem descending_getD (l : List ℚ)
    (h : Subdivision.isSortedInStrictlyDescendingOrder l = true) :
    ∀ i j : ℕ, i < j → j < l.length → l.getD j 0 < l.getD i 0 := by
  induction l with
  | nil => intro i j _ hj; simp at hj
  | cons a t ih =>
    intro i j hij hj
    cases t with
    | nil =>
      simp only [List.length_cons, List.length_nil] at hj
      omega
    | cons b r =>
      have hba : b < a ∧ Subdivision.isSortedInStrictlyDescendingOrder (b :: r) = true := by
        by_cases hba : b < a
        · refine ⟨hba, ?_⟩
          simpa [Subdivision.isSortedInStrictlyDescendingOrder, hba] using h
        · simp [Subdivision.isSortedInStrictlyDescendingOrder, hba] at h
      cases i with
      | zero =>
        obtain ⟨j', rfl⟩ : ∃ j', j = j' + 1 := ⟨j - 1, by omega⟩
        simp only [List.getD_cons_succ, List.getD_cons_zero]
        cases j' with
        | zero => simpa using hba.1
        | succ j'' =>
          have hlt := ih hba.2 0 (j'' + 1) (by omega)
            (by simp only [List.length_cons] at hj ⊢; omega)
          simp only [List.getD_cons_zero] at hlt
          exact lt_trans hlt hba.1
      | succ i' =>
        obtain ⟨j', rfl⟩ : ∃ j', j = j' + 1 := ⟨j - 1, by omega⟩
        simp only [List.getD_cons_succ]
        exact ih hba.2 i' j' (by omega)
          (by simp only [List.length_cons] at hj ⊢; omega)

/-- Lemma: bounds for the subdivision scale law — for every magnification the
recomputed unit length stays within
`[breakpoints.1, maximumLengthOfLastSubdivision]`, provided the configuration
is sane (`0 < stretchModulo`, ordered breakpoints, maximum above the upper
breakpoint, strictly descending fallout). -/
theorem unitLengthOf_bounds (o : Subdivision.StoredOptions) (m : ℚ)
    (hsm : 0 < o.stretchModulo)
    (hb : o.breakpoints.1 ≤ o.breakpoints.2)
    (hmax : o.breakpoints.2 ≤ o.maximumLengthOfLastSubdivision)
    (hdesc : Subdivision.isSortedInStrictlyDescendingOrder o.subdivisionFallout = true) :
    o.breakpoints.1 ≤ Subdivision.unitLengthOf o m ∧
    Subdivision.unitLengthOf o m ≤ o.maximumLengthOfLastSubdivision := by
  cases hcat : Subdivision.unitScaleCategoryOf o m with
  | above =>
    simp only [Subdivision.unitLengthOf, hcat]
    exact ⟨le_refl _, le_trans hb hmax⟩
  | within =>
    -- the `within` regime implies the magnification reached the fallout range
    have hm : Subdivision.startingMagnification o ≤ m := by
      by_contra hlt
      push_neg at hlt
      by_cases hnil : o.subdivisionFallout = []
      · simp [Subdivision.unitScaleCategoryOf, hnil] at hcat
      · simp [Subdivision.unitScaleCategoryOf, hnil, hlt] at hcat
    have hmod0 : 0 ≤ jsMod (m - Subdivision.startingMagnification o) o.stretchModulo :=
      jsMod_nonneg _ _ (sub_nonneg.mpr hm) hsm
    have hmod1 : jsMod (m - Subdivision.startingMagnification o) o.stretchModulo <
        o.stretchModulo := jsMod_lt _ _ (sub_nonneg.mpr hm) hsm
    simp only [Subdivision.unitLengthOf, hcat, rangeMapper]
    set w := jsMod (m - Subdivision.startingMagnification o) o.stretchModulo with hw
    have hfrac0 : 0 ≤ w / o.stretchModulo := div_nonneg hmod0 hsm.le
    have hfrac1 : w / o.stretchModulo < 1 := (div_lt_one hsm).mpr hmod1
    have hsimp : (1 + w - 1) / (o.stretchModulo + 1 - 1) = w / o.stretchModulo := by
      ring_nf
    rw [hsimp]
    constructor
    · nlinarith [mul_nonneg hfrac0 (sub_nonneg.mpr hb)]
    · nlinarith [mul_le_of_le_one_left (sub_nonneg.mpr hb) hfrac1.le]
  | last =>
    -- the `last` regime implies the magnification passed the last fallout band
    have hnil : o.subdivisionFallout ≠ [] := by
      intro hnil
      simp [Subdivision.unitScaleCategoryOf, hnil] at hcat
    have hm : Subdivision.startingMagnification o ≤ m := by
      by_contra hlt
      push_neg at hlt
      simp [Subdivision.unitScaleCategoryOf, hnil, hlt] at hcat
    have hq0 : 0 ≤ (m - Subdivision.startingMagnification o) / o.stretchModulo :=
      div_nonneg (sub_nonneg.mpr hm) hsm.le
    have hlen1 : 1 ≤ o.subdivisionFallout.length := by
      cases hl : o.subdivisionFallout with
      | nil => exact absurd hl hnil
      | cons a t => simp
    have hidx0 : 0 ≤ jsTrunc ((m - Subdivision.startingMagnification o) / o.stretchModulo) := by
      rw [jsTrunc, if_pos hq0]
      exact Int.floor_nonneg.mpr hq0
    -- the truncated subdivision index is at least `length - 1`
    have hidx : (o.subdivisionFallout.length : ℤ) - 1 ≤
        jsTrunc ((m - Subdivision.startingMagnification o) / o.stretchModulo) := by
      by_contra hidxlt
      push_neg at hidxlt
      set idx := jsTrunc ((m - Subdivision.startingMagnification o) / o.stretchModulo) with hidxdef
      have hidxlen : idx < (o.subdivisionFallout.length : ℤ) := by omega
      have htn : idx.toNat < o.subdivisionFallout.length - 1 := by omega
      have hgt : o.subdivisionFallout.getD idx.toNat 0 > Subdivision.lastFalloutValue o := by
        have := descending_getD o.subdivisionFallout hdesc idx.toNat
          (o.subdivisionFallout.length - 1) htn (by omega)
        simpa [Subdivision.lastFalloutValue] using this
      have hwithin : Subdivision.unitScaleCategoryOf o m = .within := by
        simp only [Subdivision.unitScaleCategoryOf]
        rw [if_neg hnil, if_neg (not_lt.mpr hm), ← hidxdef, if_pos hidxlen, if_pos hgt]
      rw [hcat] at hwithin
      exact Subdivision.ScaleCategory.noConfusion hwithin
    -- hence the magnification passed the start of the last band
    have hq : ((o.subdivisionFallout.length : ℚ) - 1) ≤
        (m - Subdivision.startingMagnification o) / o.stretchModulo := by
      have hfl : (o.subdivisionFallout.length : ℤ) - 1 ≤
          ⌊(m - Subdivision.startingMagnification o) / o.stretchModulo⌋ := by
        rwa [jsTrunc, if_pos hq0] at hidx
      have := Int.le_floor.mp hfl
      push_cast at this
      exact this
    have hmlast : Subdivision.startingMagnification o +
        o.stretchModulo * ((o.subdivisionFallout.length : ℚ) - 1) ≤ m := by
      have := (le_div_iff₀ hsm).mp hq
      linarith
    have hmaxb : ¬ (o.maximumLengthOfLastSubdivision < o.breakpoints.1) :=
      not_lt.mpr (le_trans hb hmax)
    simp only [Subdivision.unitLengthOf, hcat]
    rw [if_neg hmaxb]
    have ht0 : 0 ≤ (m - (Subdivision.startingMagnification o +
        o.stretchModulo * ((o.subdivisionFallout.length : ℚ) - 1))) / o.stretchModulo :=
      div_nonneg (by linarith) hsm.le
    have hspan : 0 ≤ o.maximumLengthOfLastSubdivision - o.breakpoints.1 := by linarith
    split_ifs with hgtmax
    · exact ⟨le_trans hb hmax, le_refl _⟩
    · push_neg at hgtmax
      refine ⟨?_, hgtmax⟩
      nlinarith [mul_nonneg ht0 hspan]

/-- C7.  Scale bounds.  Periodic design: after any `zoomTo` (any real
magnification, negative included) the unit length stays within
`[breakpointLowerbound, breakpointUpperBound]`, given ordered breakpoints.
Subdivision design: after any `computeScale` the unit length stays within
`[breakpoints.1, maximumLengthOfLastSubdivision]` across the `above`,
`within` and `last` regimes, given a sane configuration (positive stretch
modulo, ordered breakpoints, maximum at or above the upper breakpoint,
strictly descending fallout). -/
theorem c7_scale_bounds :
    (∀ (nl : Periodic.NumberLine) (m : ℚ),
      nl.options.breakpointLowerbound ≤ nl.options.breakpointUpperBound →
      nl.options.breakpointLowerbound ≤ (Periodic.zoomTo nl m)._unitLength ∧
      (Periodic.zoomTo nl m)._unitLength ≤ nl.options.breakpointUpperBound) ∧
    (∀ nl : Subdivision.NumberLine,
      0 < nl.options.stretchModulo →
      nl.options.breakpoints.1 ≤ nl.options.breakpoints.2 →
      nl.options.breakpoints.2 ≤ nl.options.maximumLengthOfLastSubdivision →
      Subdivision.isSortedInStrictlyDescendingOrder nl.options.subdivisionFallout = true →
      nl.options.breakpoints.1 ≤ (Subdivision.computeScale nl)._unitLength ∧
      (Subdivision.computeScale nl)._unitLength ≤
        nl.options.maximumLengthOfLastSubdivision) := by
  constructor
  · intro nl m h
    simpa only [Periodic.zoomTo] using sawtooth_bounds m
      nl.options.breakpointLowerbound nl.options.breakpointUpperBound
      nl.options.zoomPeriod h
  · intro nl hsm hb hmax hdesc
    simpa only [Subdivision.computeScale] using
      unitLengthOf_bounds nl.options nl._magnification hsm hb hmax hdesc

/-- Witness for C7 at the concrete engines `nlA` (periodic, `zoomTo 7`) and
`nlS3` (subdivision). -/
theorem c7_witness :
    (nlA.options.breakpointLowerbound ≤ (Periodic.zoomTo nlA 7)._unitLength ∧
      (Periodic.zoomTo nlA 7)._unitLength ≤ nlA.options.breakpointUpperBound) ∧
    (nlS3.options.breakpoints.1 ≤ (Subdivision.computeScale nlS3)._unitLength ∧
      (Subdivision.computeScale nlS3)._unitLength ≤
        nlS3.options.maximumLengthOfLastSubdivision) := by
  constructor
  · exact c7_scale_bounds.1 nlA 7 (by norm_num [nlA])
  · exact c7_scale_bounds.2 nlS3 (by norm_num [nlS3]) (by norm_num [nlS3])
      (by norm_num [nlS3])
      (by norm_num [Subdivision.isSortedInStrictlyDescendingOrder, nlS3])

/-- C3 (amended).  In the subdivision design, whenever `zoomAround` rejects
(returns `false`) the magnification and displacement are exactly unchanged:
the magnification rollback `m + delta - delta` is exact in ideal arithmetic.
(The periodic design's `zoomAround`, by `c3_counterexample`, performs no
bound check at all and always applies the delta.) -/
theorem c3_subdivision_reject_no_mutation :
    ∀ (nl : Subdivision.NumberLine) (value address delta : ℚ),
      (Subdivision.zoomAround nl value address delta).1 = false →
      (Subdivision.zoomAround nl value address delta).2._magnification =
        nl._magnification ∧
      (Subdivision.zoomAround nl value address delta).2._displacement =
        nl._displacement := by
  intro nl value address delta h
  have hch : Subdivision.zoomAround nl value address delta = (false, nl) ∨
      Subdivision.zoomAround nl value address delta =
        (false, Subdivision.computeScale
          { Subdivision.computeScale
              { nl with _magnification := nl._magnification + delta } with
            _magnification := nl._magnification + delta - delta }) ∨
      (Subdivision.zoomAround nl value address delta).1 = true := by
    simp only [Subdivision.zoomAround]
    split_ifs
    · exact Or.inl rfl
    · exact Or.inr (Or.inl rfl)
    all_goals exact Or.inr (Or.inr rfl)
  rcases hch with he | he | he
  · rw [he]
    exact ⟨rfl, rfl⟩
  · rw [he]
    constructor
    · show nl._magnification + delta - delta = nl._magnification
      ring
    · rfl
  · rw [he] at h
    exact Bool.noConfusion h

/-- Witness for C3 at the concrete rejected zoom `zoomAround(0, 0, -5)` on
`nlS0` (magnification `2`, so `2 + (-5) ≤ 1`). -/
theorem c3_witness :
    (Subdivision.zoomAround nlS0 0 0 (-5)).1 = false ∧
    (Subdivision.zoomAround nlS0 0 0 (-5)).2._magnification = nlS0._magnification ∧
    (Subdivision.zoomAround nlS0 0 0 (-5)).2._displacement = nlS0._displacement := by
  have h : (Subdivision.zoomAround nlS0 0 0 (-5)).1 = false := by
    norm_num [Subdivision.zoomAround, nlS0]
  exact ⟨h, c3_subdivision_reject_no_mutation nlS0 0 0 (-5) h⟩

/-- C4 (amended).  Invalid ranges: the subdivision design's `rangeFit` throws
the invalid-range error whenever `end ≤ start` (both `(40, 10)` and
`(40, 40)`, for any length); the periodic design's `rangeFit` instead
silently swaps the endpoints when `end < start` — the call equals the call
with the endpoints exchanged — and completes normally when `end == start`
(see `c4_counterexample`). -/
theorem c4_invalid_range :
    (∀ (nl : Subdivision.NumberLine) (s e L : ℚ), e ≤ s →
      Subdivision.rangeFit nl s e L =
        Except.error "Ending value has to be greater than starting value") ∧
    (∀ (nl : Periodic.NumberLine) (s e L : ℚ) (f : Option ℚ), e < s →
      Periodic.rangeFit nl s e L f = Periodic.rangeFit nl e s L f) := by
  constructor
  · intro nl s e L h
    simp only [Subdivision.rangeFit, if_pos h]
  · intro nl s e L f h
    simp only [Periodic.rangeFit, if_pos h, if_neg (not_lt.mpr h.le)]

/-- Witness for C4: the subdivision `rangeFit` errors on `(40, 10)` and
`(40, 40)`, and the periodic `rangeFit` on `(40, 10)` equals the swapped
call. -/
theorem c4_witness :
    Subdivision.rangeFit nlS1 40 10 100 =
      Except.error "Ending value has to be greater than starting value" ∧
    Subdivision.rangeFit nlS1 40 40 100 =
      Except.error "Ending value has to be greater than starting value" ∧
    Periodic.rangeFit nlB 40 10 100 none = Periodic.rangeFit nlB 10 40 100 none :=
  ⟨c4_invalid_range.1 nlS1 40 10 100 (by norm_num),
    c4_invalid_range.1 nlS1 40 40 100 (by norm_num),
    c4_invalid_range.2 nlB 40 10 100 none (by norm_num)⟩

/-- C5 (amended).  The periodic design's `rangeFit` is a pure query: its body
contains no assignment, so the engine after the call is the engine before it,
for every state and every argument combination (the subdivision design's
`rangeFit`, by `c5_counterexample`, applies the fit instead). -/
theorem c5_periodic_rangeFit_pure :
    ∀ (nl : Periodic.NumberLine) (s e L : ℚ) (f : Option ℚ),
      (Periodic.rangeFit nl s e L f).2 = nl := by
  intro nl s e L f
  rfl

/-- C10.  Constructing a periodic `NumberLine` with `zoomPeriod` and
`zoomFactor` omitted succeeds (the validity checks run before defaulting and
`undefined` passes them) and produces exactly the engine obtained with
explicit `zoomPeriod = 10`, `zoomFactor = 1` — the initial `zoomTo` uses the
defaulted values. -/
theorem c10_zoom_defaults :
    ∀ opts : Periodic.Options, opts.zoomPeriod = none → opts.zoomFactor = none →
      opts.breakpointLowerbound ≤ opts.breakpointUpperBound →
      (Periodic.create opts).toOption.isSome = true ∧
      Periodic.create opts =
        Periodic.create { opts with zoomPeriod := some 10, zoomFactor := some 1 } := by
  intro opts h1 h2 h3
  constructor
  · norm_num [Periodic.create, h1, h2, jsLeZero, jsOr, not_lt.mpr h3, Except.toOption]
  · norm_num [Periodic.create, h1, h2, jsLeZero, jsOr, not_lt.mpr h3]

/-- Lemma: the periodic `zoomAround` keeps the value rendered at the anchor
position fixed, for every state and delta, as long as the post-zoom
`unitLength/unitValue` ratio is nonzero. -/
theorem periodic_zoomAround_anchors (nl : Periodic.NumberLine) (p delta : ℚ)
    (h : (Periodic.zoomAround nl p delta)._unitLength /
      (Periodic.zoomAround nl p delta)._unitValue ≠ 0) :
    Periodic.valueAt (Periodic.zoomAround nl p delta) p = Periodic.valueAt nl p := by
  simp only [Periodic.zoomAround, Periodic.zoomTo, Periodic.panTo, Periodic.positionOf,
    Periodic.valueAt] at h ⊢
  rw [div_eq_iff h]
  ring

/-- Lemma: closed form of the subdivision `valueAt` at an absolute location
(`wrtOrigin = false`) in terms of the scale-law functions. -/
theorem subdivision_valueAt_state (nl : Subdivision.NumberLine) (x : ℚ) :
    Subdivision.valueAt nl x false =
      nl._displacement / Subdivision.unitLengthOf nl.options nl._magnification *
        Subdivision.unitValueOf nl.options nl._magnification +
      x / Subdivision.unitLengthOf nl.options nl._magnification *
        Subdivision.unitValueOf nl.options nl._magnification := by
  simp [Subdivision.valueAt, Subdivision.computeScale]

/-- Lemma: closed form of the subdivision `locationOf` at an absolute location
(`wrtOrigin = false`). -/
theorem subdivision_locationOf_state (nl : Subdivision.NumberLine) (v : ℚ) :
    Subdivision.locationOf nl v false =
      v / Subdivision.unitValueOf nl.options nl._magnification *
        Subdivision.unitLengthOf nl.options nl._magnification - nl._displacement := by
  simp [Subdivision.locationOf, Subdivision.computeScale]

/-- Lemma: state reached by a successful subdivision `zoomAround` outside the
`above` regime, under a coherent cursor-sync state: the magnification moves by
`delta`, the options are untouched, and the displacement shifts by exactly
the anchored value's change of location (the sync correction vanishes). -/
theorem subdivision_zoomAround_success_state (nl : Subdivision.NumberLine)
    (v a delta : ℚ)
    (h1 : ¬ (nl._magnification + delta ≤ 1))
    (h2 : ¬ (Subdivision.unitScaleCategoryOf nl.options (nl._magnification + delta) =
        Subdivision.ScaleCategory.last ∧
      Subdivision.unitLengthOf nl.options (nl._magnification + delta) >
        nl.options.maximumLengthOfLastSubdivision))
    (h3 : Subdivision.unitScaleCategoryOf nl.options (nl._magnification + delta) ≠
      Subdivision.ScaleCategory.above)
    (h4 : nl._lastZoomValid = true → a = nl._lastZoomAddress → v = nl._lastZoomValue) :
    (Subdivision.zoomAround nl v a delta).1 = true ∧
    (Subdivision.zoomAround nl v a delta).2.options = nl.options ∧
    (Subdivision.zoomAround nl v a delta).2._magnification =
      nl._magnification + delta ∧
    (Subdivision.zoomAround nl v a delta).2._displacement =
      nl._displacement +
        (Subdivision.locationOf
            (Subdivision.computeScale { nl with _magnification := nl._magnification + delta })
            v false -
          Subdivision.locationOf nl v false) := by
  simp only [Subdivision.zoomAround, Subdivision.unitScaleCategory,
    Subdivision.computeScale]
  rw [if_neg h1, if_neg h2, if_pos h3]
  by_cases hc4 : some (Subdivision.unitScaleCategoryOf nl.options (nl._magnification + delta)) ≠
      nl._lastZoomScaleCategory
  · rw [if_pos hc4]
    exact ⟨rfl, rfl, rfl, by simp [Subdivision.locationOf, Subdivision.computeScale]⟩
  · rw [if_neg hc4]
    by_cases hc5 : nl._lastZoomValid = true
    · rw [if_pos hc5]
      by_cases hc6 : a = nl._lastZoomAddress ∧
          Subdivision.unitScaleCategoryOf nl.options (nl._magnification + delta) ≠
            Subdivision.ScaleCategory.above
      · rw [if_pos hc6]
        have hvz : v - nl._lastZoomValue = 0 := by
          rw [h4 hc5 hc6.1]
          ring
        refine ⟨rfl, rfl, rfl, ?_⟩
        show nl._displacement +
            (Subdivision.locationOf _ v false - Subdivision.locationOf _ v false) -
            (v - nl._lastZoomValue) / _ * _ = _
        rw [hvz]
        simp [Subdivision.locationOf, Subdivision.computeScale]
      · rw [if_neg hc6]
        exact ⟨rfl, rfl, rfl, by simp [Subdivision.locationOf, Subdivision.computeScale]⟩
    · rw [if_neg hc5]
      exact ⟨rfl, rfl, rfl, by simp [Subdivision.locationOf, Subdivision.computeScale]⟩

/-- Lemma: the subdivision `zoomAround`, called as intended with the anchored
value `valueAt(p)` and address `p`, keeps the value rendered at `p` fixed
whenever it succeeds outside the `above` regime, provided the cursor-sync
state is coherent with `p` (fresh, pointed at another address, or already
recording `valueAt(p)`) and the unit lengths/values at the old and new
magnification are nonzero. -/
theorem subdivision_zoomAround_anchors (nl : Subdivision.NumberLine) (p delta : ℚ)
    (hcat : Subdivision.unitScaleCategoryOf nl.options (nl._magnification + delta) ≠
      Subdivision.ScaleCategory.above)
    (h1 : ¬ (nl._magnification + delta ≤ 1))
    (h2 : ¬ (Subdivision.unitScaleCategoryOf nl.options (nl._magnification + delta) =
        Subdivision.ScaleCategory.last ∧
      Subdivision.unitLengthOf nl.options (nl._magnification + delta) >
        nl.options.maximumLengthOfLastSubdivision))
    (hsync : nl._lastZoomValid = true → nl._lastZoomAddress = p →
      nl._lastZoomValue = Subdivision.valueAt nl p false)
    (hL0 : Subdivision.unitLengthOf nl.options nl._magnification ≠ 0)
    (hV0 : Subdivision.unitValueOf nl.options nl._magnification ≠ 0)
    (hL1 : Subdivision.unitLengthOf nl.options (nl._magnification + delta) ≠ 0)
    (hV1 : Subdivision.unitValueOf nl.options (nl._magnification + delta) ≠ 0) :
    (Subdivision.zoomAround nl (Subdivision.valueAt nl p false) p delta).1 = true ∧
    Subdivision.valueAt
      (Subdivision.zoomAround nl (Subdivision.valueAt nl p false) p delta).2 p false =
      Subdivision.valueAt nl p false := by
  have h4 : nl._lastZoomValid = true → p = nl._lastZoomAddress →
      Subdivision.valueAt nl p false = nl._lastZoomValue := by
    intro hv ha
    exact (hsync hv ha.symm).symm
  obtain ⟨hok, hopts, hmag, hdisp⟩ := subdivision_zoomAround_success_state nl
    (Subdivision.valueAt nl p false) p delta h1 h2 hcat h4
  refine ⟨hok, ?_⟩
  rw [subdivision_valueAt_state, hopts, hmag, hdisp]
  rw [subdivision_locationOf_state, subdivision_locationOf_state]
  simp only [Subdivision.computeScale]
  rw [subdivision_valueAt_state]
  field_simp
  ring

/-- C2 (amended).  Zoom anchoring invariance.  Periodic design: for every
state, anchor position and delta (the method always completes — it has no
return value), the value rendered at the anchor is unchanged, provided the
post-zoom scale ratio is nonzero.  Subdivision design: when `zoomAround` is
called as intended with the anchored value `valueAt(p)` and address `p`, and
it succeeds with the new magnification outside the `above` regime (where the
source skips the displacement compensation — see `c2_counterexample`), the
value rendered at `p` is unchanged; the cursor-sync hypothesis (valid state
recorded at `p` implies the recorded value is `valueAt(p)`) is exactly what
repeated calls at the same address re-establish, so the invariance persists
across such call chains. -/
theorem c2_zoom_anchoring :
    (∀ (nl : Periodic.NumberLine) (p delta : ℚ),
      (Periodic.zoomAround nl p delta)._unitLength /
        (Periodic.zoomAround nl p delta)._unitValue ≠ 0 →
      Periodic.valueAt (Periodic.zoomAround nl p delta) p = Periodic.valueAt nl p) ∧
    (∀ (nl : Subdivision.NumberLine) (p delta : ℚ),
      Subdivision.unitScaleCategoryOf nl.options (nl._magnification + delta) ≠
        Subdivision.ScaleCategory.above →
      ¬ (nl._magnification + delta ≤ 1) →
      ¬ (Subdivision.unitScaleCategoryOf nl.options (nl._magnification + delta) =
          Subdivision.ScaleCategory.last ∧
        Subdivision.unitLengthOf nl.options (nl._magnification + delta) >
          nl.options.maximumLengthOfLastSubdivision) →
      (nl._lastZoomValid = true → nl._lastZoomAddress = p →
        nl._lastZoomValue = Subdivision.valueAt nl p false) →
      Subdivision.unitLengthOf nl.options nl._magnification ≠ 0 →
      Subdivision.unitValueOf nl.options nl._magnification ≠ 0 →
      Subdivision.unitLengthOf nl.options (nl._magnification + delta) ≠ 0 →
      Subdivision.unitValueOf nl.options (nl._magnification + delta) ≠ 0 →
      (Subdivision.zoomAround nl (Subdivision.valueAt nl p false) p delta).1 = true ∧
      Subdivision.valueAt
        (Subdivision.zoomAround nl (Subdivision.valueAt nl p false) p delta).2 p false =
        Subdivision.valueAt nl p false) :=
  ⟨periodic_zoomAround_anchors, subdivision_zoomAround_anchors⟩

/-- Witness for C2: a periodic zoom around position `100` on `nlA`, and a
subdivision zoom around position `10` on `nlS3` (a `within`-regime state). -/
theorem c2_witness :
    (Periodic.valueAt (Periodic.zoomAround nlA 100 3) 100 = Periodic.valueAt nlA 100) ∧
    ((Subdivision.zoomAround nlS3 (Subdivision.valueAt nlS3 10 false) 10 1).1 = true ∧
      Subdivision.valueAt
        (Subdivision.zoomAround nlS3 (Subdivision.valueAt nlS3 10 false) 10 1).2 10 false =
        Subdivision.valueAt nlS3 10 false) := by
  have hwithin : Subdivision.unitScaleCategoryOf nlS3.options (nlS3._magnification + 1) =
      Subdivision.ScaleCategory.within := by
    norm_num [Subdivision.unitScaleCategoryOf, Subdivision.startingMagnification,
      Subdivision.lastFalloutValue, jsTrunc, jsMod, nlS3, List.cons_ne_nil]
  constructor
  · exact c2_zoom_anchoring.1 nlA 100 3 (by
      norm_num [Periodic.zoomAround, Periodic.zoomTo, Periodic.panTo, Periodic.positionOf,
        Periodic.valueAt, Periodic.sawtooth, Periodic.staircase, jsMod, jsTrunc, nlA])
  · refine c2_zoom_anchoring.2 nlS3 10 1 ?_ (by norm_num [nlS3]) ?_
      (fun hv => absurd hv (by norm_num [nlS3])) ?_ ?_ ?_ ?_
    · rw [hwithin]
      decide
    · rw [hwithin]
      exact fun h => Subdivision.ScaleCategory.noConfusion h.1
    · norm_num [Subdivision.unitLengthOf, Subdivision.unitScaleCategoryOf,
        Subdivision.startingMagnification, Subdivision.lastFalloutValue, rangeMapper,
        jsTrunc, jsMod, nlS3, List.cons_ne_nil]
    · norm_num [Subdivision.unitValueOf, Subdivision.unitScaleCategoryOf,
        Subdivision.startingMagnification, Subdivision.lastFalloutValue,
        jsTrunc, jsMod, nlS3, List.cons_ne_nil]
    · norm_num [Subdivision.unitLengthOf, Subdivision.unitScaleCategoryOf,
        Subdivision.startingMagnification, Subdivision.lastFalloutValue, rangeMapper,
        jsTrunc, jsMod, nlS3, List.cons_ne_nil]
    · norm_num [Subdivision.unitValueOf, Subdivision.unitScaleCategoryOf,
        Subdivision.startingMagnification, Subdivision.lastFalloutValue,
        jsTrunc, jsMod, nlS3, List.cons_ne_nil]

/-- Lemma: the JS truncated remainder of integers is congruent to the
dividend. -/
theorem tmod_modeq (a b : ℤ) : Int.tmod a b ≡ a [ZMOD b] := by
  have h := Int.tdiv_add_tmod a b
  have hd : (b : ℤ) ∣ a - Int.tmod a b := ⟨Int.tdiv a b, by linarith⟩
  exact Int.modEq_iff_dvd.mpr hd

/-- Lemma: an integer multiple of `b` strictly between `-b` and `b` is `0`. -/
theorem eq_zero_of_small_multiple (x b : ℤ) (hb : 0 < b) (hdvd : b ∣ x)
    (hlo : -b < x) (hhi : x < b) : x = 0 := by
  rcases hdvd with ⟨c, rfl⟩
  have hc1 : c < 1 := by
    by_contra hc
    push_neg at hc
    nlinarith
  have hc2 : -1 < c := by
    by_contra hc
    push_neg at hc
    nlinarith
  have : c = 0 := by omega
  rw [this, mul_zero]

/-- Lemma: every tick produced by the periodic tick loop has value
`v₀ + i·tickValue` and pattern index congruent to `idx₀ + i` modulo the tick
count, staying strictly between `-tickCount` and `tickCount`. -/
theorem periodic_ticksLoop_mem (pattern : List ℚ) (tc : ℕ) (htc : 0 < tc)
    (tv tg : ℚ) :
    ∀ (n : ℕ) (v pos : ℚ) (idx neg : ℤ), -(tc : ℤ) < idx → idx < (tc : ℤ) →
    ∀ tm ∈ Periodic.ticksLoop pattern tc tv tg n v pos idx neg,
      ∃ i : ℕ, tm.value = v + (i : ℚ) * tv ∧
        tm.patternIndex ≡ idx + (i : ℤ) [ZMOD (tc : ℤ)] ∧
        -(tc : ℤ) < tm.patternIndex ∧ tm.patternIndex < (tc : ℤ) := by
  intro n
  induction n with
  | zero => intro v pos idx neg _ _ tm hmem; simp [Periodic.ticksLoop] at hmem
  | succ n ih =>
    intro v pos idx neg hlo hhi tm hmem
    simp only [Periodic.ticksLoop, List.mem_cons] at hmem
    rcases hmem with rfl | hmem
    · exact ⟨0, by simp, by simp [Int.ModEq.refl], hlo, hhi⟩
    · have hnext : (if idx + 1 < (tc : ℤ) then idx + 1 else 0) ≡ idx + 1 [ZMOD (tc : ℤ)] ∧
          -(tc : ℤ) < (if idx + 1 < (tc : ℤ) then idx + 1 else 0) ∧
          (if idx + 1 < (tc : ℤ) then idx + 1 else 0) < (tc : ℤ) := by
        split_ifs with hw
        · exact ⟨Int.ModEq.refl _, by omega, hw⟩
        · have : idx + 1 = (tc : ℤ) := by omega
          refine ⟨?_, by omega, by omega⟩
          rw [this]
          exact (Int.modEq_iff_dvd.mpr (by simp)).symm
      obtain ⟨i, hv, hmod, hplo, hphi⟩ := ih (v + tv) (pos + tg) _ (neg - 1)
        hnext.2.1 hnext.2.2 tm hmem
      refine ⟨i + 1, ?_, ?_, hplo, hphi⟩
      · rw [hv]
        push_cast
        ring
      · calc tm.patternIndex ≡ (if idx + 1 < (tc : ℤ) then idx + 1 else 0) + (i : ℤ)
              [ZMOD (tc : ℤ)] := hmod
          _ ≡ (idx + 1) + (i : ℤ) [ZMOD (tc : ℤ)] := Int.ModEq.add_right _ hnext.1
          _ = idx + ((i : ℤ) + 1) := by ring
          _ = idx + ((i : ℕ) + 1 : ℕ) := by push_cast; ring

/-- Lemma: pattern alignment for the periodic design — in every view model
built from a state with a nonempty pattern, positive unit length and nonzero
unit value, a tick of value `0` carries pattern index `0`. -/
theorem periodic_pattern_alignment (nl : Periodic.NumberLine) (len : ℚ)
    (htc : 0 < nl.options.pattern.length)
    (hL : 0 < nl._unitLength) (hV : nl._unitValue ≠ 0) :
    ∀ tm ∈ (Periodic.buildViewModel nl len).tickMarks, tm.value = 0 →
      tm.patternIndex = 0 := by
  intro tm hmem hval
  have htcZ : (0 : ℤ) < (nl.options.pattern.length : ℤ) := by exact_mod_cast htc
  have htv : nl._unitValue / (nl.options.pattern.length : ℚ) ≠ 0 :=
    div_ne_zero hV (Nat.cast_ne_zero.mpr htc.ne')
  simp only [Periodic.buildViewModel, Periodic.NumberLine.tickCount] at hmem
  by_cases hd : 0 ≤ nl._displacement
  · rw [if_pos hd] at hmem
    dsimp only at hmem
    set k : ℤ := ⌈nl._displacement / nl._unitLength * (nl.options.pattern.length : ℚ)⌉ with hk
    have hk0 : 0 ≤ k :=
      Int.ceil_nonneg (mul_nonneg (div_nonneg hd hL.le) (Nat.cast_nonneg _))
    have hidx0 : 0 ≤ Int.tmod k (nl.options.pattern.length : ℤ) := Int.tmod_nonneg _ hk0
    have hidx1 : Int.tmod k (nl.options.pattern.length : ℤ) <
        (nl.options.pattern.length : ℤ) := Int.tmod_lt_of_pos _ htcZ
    obtain ⟨i, hv, hmod, hplo, hphi⟩ := periodic_ticksLoop_mem nl.options.pattern
      nl.options.pattern.length htc _ _ _ _ _ _ _ (by omega) hidx1 tm hmem
    have h0 : (k : ℚ) * (nl._unitValue / (nl.options.pattern.length : ℚ)) +
        (i : ℚ) * (nl._unitValue / (nl.options.pattern.length : ℚ)) = 0 :=
      hv.symm.trans hval
    have hki : k + (i : ℤ) = 0 := by
      have h1 : ((k : ℚ) + i) * (nl._unitValue / (nl.options.pattern.length : ℚ)) = 0 := by
        rw [add_mul]
        exact h0
      have h2 : (k : ℚ) + i = 0 := by
        rcases mul_eq_zero.mp h1 with h | h
        · exact h
        · exact absurd h htv
      exact_mod_cast h2
    have hz : tm.patternIndex ≡ 0 [ZMOD (nl.options.pattern.length : ℤ)] := by
      calc tm.patternIndex ≡ Int.tmod k (nl.options.pattern.length : ℤ) + (i : ℤ)
            [ZMOD (nl.options.pattern.length : ℤ)] := hmod
        _ ≡ k + (i : ℤ) [ZMOD (nl.options.pattern.length : ℤ)] :=
            Int.ModEq.add_right _ (tmod_modeq _ _)
        _ = 0 := hki
    exact eq_zero_of_small_multiple _ _ htcZ (Int.modEq_zero_iff_dvd.mp hz) hplo hphi
  · rw [if_neg hd] at hmem
    dsimp only at hmem
    push_neg at hd
    set k : ℤ := ⌊-nl._displacement / nl._unitLength * (nl.options.pattern.length : ℚ)⌋ with hk
    have hk0 : 0 ≤ k :=
      Int.floor_nonneg.mpr (mul_nonneg (div_nonneg (by linarith) hL.le) (Nat.cast_nonneg _))
    have hidx0 : 0 ≤ Int.tmod k (nl.options.pattern.length : ℤ) := Int.tmod_nonneg _ hk0
    have hidx1 : Int.tmod k (nl.options.pattern.length : ℤ) <
        (nl.options.pattern.length : ℤ) := Int.tmod_lt_of_pos _ htcZ
    have hidxc : (if Int.tmod k (nl.options.pattern.length : ℤ) = 0 then (0 : ℤ)
        else (nl.options.pattern.length : ℤ) - Int.tmod k (nl.options.pattern.length : ℤ)) ≡
        -k [ZMOD (nl.options.pattern.length : ℤ)] := by
      split_ifs with hzero
      · have hdvd : (nl.options.pattern.length : ℤ) ∣ k := by
          have h := tmod_modeq k (nl.options.pattern.length : ℤ)
          rw [hzero] at h
          exact Int.modEq_zero_iff_dvd.mp h.symm
        exact (Int.modEq_zero_iff_dvd.mpr (Dvd.dvd.neg_right hdvd)).symm
      · have h1 : (nl.options.pattern.length : ℤ) ≡ 0
            [ZMOD (nl.options.pattern.length : ℤ)] :=
          Int.modEq_zero_iff_dvd.mpr dvd_rfl
        have h2 := Int.ModEq.sub h1 (tmod_modeq k (nl.options.pattern.length : ℤ))
        calc (nl.options.pattern.length : ℤ) - Int.tmod k (nl.options.pattern.length : ℤ)
            ≡ 0 - k [ZMOD (nl.options.pattern.length : ℤ)] := h2
          _ = -k := by ring
    obtain ⟨i, hv, hmod, hplo, hphi⟩ := periodic_ticksLoop_mem nl.options.pattern
      nl.options.pattern.length htc _ _ _ _ _ _ _ (by split_ifs <;> omega)
      (by split_ifs <;> omega) tm hmem
    have h0 : (-k : ℚ) * (nl._unitValue / (nl.options.pattern.length : ℚ)) +
        (i : ℚ) * (nl._unitValue / (nl.options.pattern.length : ℚ)) = 0 :=
      hv.symm.trans hval
    have hki : -k + (i : ℤ) = 0 := by
      have h1 : ((-k : ℚ) + i) * (nl._unitValue / (nl.options.pattern.length : ℚ)) = 0 := by
        rw [add_mul]
        exact h0
      have h2 : (-k : ℚ) + i = 0 := by
        rcases mul_eq_zero.mp h1 with h | h
        · exact h
        · exact absurd h htv
      exact_mod_cast h2
    have hz : tm.patternIndex ≡ 0 [ZMOD (nl.options.pattern.length : ℤ)] := by
      calc tm.patternIndex ≡ (if Int.tmod k (nl.options.pattern.length : ℤ) = 0 then (0 : ℤ)
            else (nl.options.pattern.length : ℤ) -
              Int.tmod k (nl.options.pattern.length : ℤ)) + (i : ℤ)
            [ZMOD (nl.options.pattern.length : ℤ)] := hmod
        _ ≡ -k + (i : ℤ) [ZMOD (nl.options.pattern.length : ℤ)] :=
            Int.ModEq.add_right _ hidxc
        _ = 0 := hki
    exact eq_zero_of_small_multiple _ _ htcZ (Int.modEq_zero_iff_dvd.mp hz) hplo hphi

/-- Lemma: with no negative ticks pending the subdivision tick loop only
increments, so the drift equals the step count. -/
theorem stepSum_nonpos : ∀ (i : ℕ) (neg : ℤ), neg ≤ 0 → stepSum neg i = i := by
  intro i
  induction i with
  | zero => intro neg _; rfl
  | succ i ih =>
    intro neg hneg
    rw [stepSum, if_neg (by omega), ih (neg - 1) (by omega)]
    push_cast
    ring

/-- Lemma: consuming exactly the pending negative ticks drifts the index by
their negated count. -/
theorem stepSum_self : ∀ n : ℕ, stepSum (n : ℤ) n = -(n : ℤ) := by
  intro n
  induction n with
  | zero => rfl
  | succ n ih =>
    rw [stepSum, if_pos (by omega)]
    have : ((n : ℤ) + 1) - 1 = (n : ℤ) := by ring
    push_cast
    rw [this, ih]
    ring

/-- Lemma: every tick produced by the subdivision tick loop has value
`v₀ + i·tickValue` (after the `isActuallyZero` normalisation) and pattern
index congruent to `idx₀ + stepSum neg i` modulo the tick count, staying in
`[0, tickCount)`. -/
theorem subdivision_ticksLoop_mem (pattern : List ℚ) (tc : ℕ) (htc : 0 < tc)
    (tv tg : ℚ) :
    ∀ (n : ℕ) (v pos : ℚ) (idx neg : ℤ), 0 ≤ idx → idx < (tc : ℤ) →
    ∀ tm ∈ Subdivision.ticksLoop pattern tc tv tg n v pos idx neg,
      ∃ i : ℕ, (tm.value = 0 → v + (i : ℚ) * tv = 0) ∧
        tm.patternIndex ≡ idx + stepSum neg i [ZMOD (tc : ℤ)] ∧
        0 ≤ tm.patternIndex ∧ tm.patternIndex < (tc : ℤ) := by
  intro n
  induction n with
  | zero => intro v pos idx neg _ _ tm hmem; simp [Subdivision.ticksLoop] at hmem
  | succ n ih =>
    intro v pos idx neg hlo hhi tm hmem
    simp only [Subdivision.ticksLoop, List.mem_cons] at hmem
    rcases hmem with rfl | hmem
    · refine ⟨0, ?_, by simp [stepSum, Int.ModEq.refl], hlo, hhi⟩
      intro hz
      simp only at hz
      by_cases hz0 : Subdivision.isActuallyZero v = true
      · have := hz0
        simp only [Subdivision.isActuallyZero, decide_eq_true_eq, abs_eq_zero] at this
        simp [this]
      · rw [if_neg hz0] at hz
        simp [hz]
    · set inc : ℤ := if neg > 0 then (-1 : ℤ) else 1 with hinc
      set idx2 : ℤ := if idx + inc < 0 then (tc : ℤ) - 1
        else if idx + inc ≥ (tc : ℤ) then 0 else idx + inc with hidx2
      have hincr : inc = -1 ∨ inc = 1 := by
        rw [hinc]
        split_ifs <;> simp
      have hnext : idx2 ≡ idx + inc [ZMOD (tc : ℤ)] ∧ 0 ≤ idx2 ∧ idx2 < (tc : ℤ) := by
        rw [hidx2]
        split_ifs with hw1 hw2
        · have : idx + inc = -1 := by omega
          rw [this]
          refine ⟨?_, by omega, by omega⟩
          exact (Int.modEq_iff_dvd.mpr (by simp)).symm
        · have : idx + inc = (tc : ℤ) := by omega
          rw [this]
          refine ⟨?_, by omega, by omega⟩
          exact (Int.modEq_iff_dvd.mpr (by simp)).symm
        · exact ⟨Int.ModEq.refl _, by omega, by omega⟩
      obtain ⟨i, hv, hmod, hplo, hphi⟩ := ih (v + tv) (pos + tg) idx2 (neg - 1)
        hnext.2.1 hnext.2.2 tm hmem
      refine ⟨i + 1, ?_, ?_, hplo, hphi⟩
      · intro hz
        have := hv hz
        push_cast
        push_cast at this
        linarith [this]
      · have hstep : stepSum neg (i + 1) = inc + stepSum (neg - 1) i := by
          rw [stepSum, hinc]
        rw [hstep]
        calc tm.patternIndex ≡ idx2 + stepSum (neg - 1) i [ZMOD (tc : ℤ)] := hmod
          _ ≡ (idx + inc) + stepSum (neg - 1) i [ZMOD (tc : ℤ)] :=
              Int.ModEq.add_right _ hnext.1
          _ = idx + (inc + stepSum (neg - 1) i) := by ring

/-- Lemma: pattern alignment for the subdivision design — in every view model
built from a state whose recomputed scale has positive unit length and
nonzero unit value (and a nonempty pattern), a tick of value `0` carries
pattern index `0`. -/
theorem subdivision_pattern_alignment (nl : Subdivision.NumberLine) (len : ℚ)
    (htc : 0 < nl.options.pattern.length)
    (hL : 0 < (Subdivision.computeScale nl)._unitLength)
    (hV : (Subdivision.computeScale nl)._unitValue ≠ 0) :
    ∀ tm ∈ (Subdivision.buildViewModel nl len).tickMarks, tm.value = 0 →
      tm.patternIndex = 0 := by
  intro tm hmem hval
  simp only [Subdivision.computeScale] at hL hV
  have htcZ : (0 : ℤ) < (nl.options.pattern.length : ℤ) := by exact_mod_cast htc
  have htv : Subdivision.unitValueOf nl.options nl._magnification /
      (nl.options.pattern.length : ℚ) ≠ 0 :=
    div_ne_zero hV (Nat.cast_ne_zero.mpr htc.ne')
  simp only [Subdivision.buildViewModel, Subdivision.computeScale] at hmem
  by_cases hd : 0 ≤ nl._displacement
  · rw [if_pos hd] at hmem
    dsimp only at hmem
    set k : ℤ := ⌈nl._displacement / Subdivision.unitLengthOf nl.options nl._magnification *
      (nl.options.pattern.length : ℚ)⌉ with hk
    have hk0 : 0 ≤ k :=
      Int.ceil_nonneg (mul_nonneg (div_nonneg hd hL.le) (Nat.cast_nonneg _))
    have hidx0 : 0 ≤ Int.tmod k (nl.options.pattern.length : ℤ) := Int.tmod_nonneg _ hk0
    have hidx1 : Int.tmod k (nl.options.pattern.length : ℤ) <
        (nl.options.pattern.length : ℤ) := Int.tmod_lt_of_pos _ htcZ
    obtain ⟨i, hv, hmod, hplo, hphi⟩ := subdivision_ticksLoop_mem nl.options.pattern
      nl.options.pattern.length htc _ _ _ _ _ _ _ hidx0 hidx1 tm hmem
    have h0 := hv hval
    have hki : k + (i : ℤ) = 0 := by
      have h1 : ((k : ℚ) + i) * (Subdivision.unitValueOf nl.options nl._magnification /
          (nl.options.pattern.length : ℚ)) = 0 := by
        rw [add_mul]
        exact h0
      have h2 : (k : ℚ) + i = 0 := by
        rcases mul_eq_zero.mp h1 with h | h
        · exact h
        · exact absurd h htv
      exact_mod_cast h2
    have hz : tm.patternIndex ≡ 0 [ZMOD (nl.options.pattern.length : ℤ)] := by
      calc tm.patternIndex ≡ Int.tmod k (nl.options.pattern.length : ℤ) + stepSum 0 i
            [ZMOD (nl.options.pattern.length : ℤ)] := hmod
        _ = Int.tmod k (nl.options.pattern.length : ℤ) + (i : ℤ) := by
            rw [stepSum_nonpos i 0 le_rfl]
        _ ≡ k + (i : ℤ) [ZMOD (nl.options.pattern.length : ℤ)] :=
            Int.ModEq.add_right _ (tmod_modeq _ _)
        _ = 0 := hki
    exact eq_zero_of_small_multiple _ _ htcZ (Int.modEq_zero_iff_dvd.mp hz)
      (by omega) hphi
  · rw [if_neg hd] at hmem
    dsimp only at hmem
    push_neg at hd
    set k : ℤ := ⌊nl._displacement / Subdivision.unitLengthOf nl.options nl._magnification *
      (nl.options.pattern.length : ℚ)⌋ with hk
    have hkneg : k < 0 := by
      have harg : nl._displacement / Subdivision.unitLengthOf nl.options nl._magnification *
          (nl.options.pattern.length : ℚ) < 0 := by
        have hdiv : nl._displacement /
            Subdivision.unitLengthOf nl.options nl._magnification < 0 :=
          div_neg_of_neg_of_pos hd hL
        have hc : (0 : ℚ) < (nl.options.pattern.length : ℚ) := by exact_mod_cast htc
        exact mul_neg_of_neg_of_pos hdiv hc
      rw [hk]
      by_contra hge
      push_neg at hge
      exact absurd (Int.floor_nonneg.mp hge) (not_le.mpr harg)
    have hnk0 : 0 ≤ -k := by omega
    have hidx0 : 0 ≤ Int.tmod (-k) (nl.options.pattern.length : ℤ) :=
      Int.tmod_nonneg _ hnk0
    have hidx1 : Int.tmod (-k) (nl.options.pattern.length : ℤ) <
        (nl.options.pattern.length : ℤ) := Int.tmod_lt_of_pos _ htcZ
    obtain ⟨i, hv, hmod, hplo, hphi⟩ := subdivision_ticksLoop_mem nl.options.pattern
      nl.options.pattern.length htc _ _ _ _ _ _ _ hidx0 hidx1 tm hmem
    have h0 := hv hval
    have hki : (i : ℤ) = -k := by
      have h1 : ((k : ℚ) + i) * (Subdivision.unitValueOf nl.options nl._magnification /
          (nl.options.pattern.length : ℚ)) = 0 := by
        rw [add_mul]
        exact h0
      have h2 : (k : ℚ) + i = 0 := by
        rcases mul_eq_zero.mp h1 with h | h
        · exact h
        · exact absurd h htv
      have : k + (i : ℤ) = 0 := by exact_mod_cast h2
      omega
    have hstep : stepSum (-k) i = -(i : ℤ) := by
      have hik : ((i : ℕ) : ℤ) = -k := hki
      rw [← hik]
      exact stepSum_self i
    have hz : tm.patternIndex ≡ 0 [ZMOD (nl.options.pattern.length : ℤ)] := by
      calc tm.patternIndex ≡ Int.tmod (-k) (nl.options.pattern.length : ℤ) + stepSum (-k) i
            [ZMOD (nl.options.pattern.length : ℤ)] := hmod
        _ = Int.tmod (-k) (nl.options.pattern.length : ℤ) + -(i : ℤ) := by rw [hstep]
        _ ≡ -k + -(i : ℤ) [ZMOD (nl.options.pattern.length : ℤ)] :=
            Int.ModEq.add_right _ (tmod_modeq _ _)
        _ = 0 := by omega
    exact eq_zero_of_small_multiple _ _ htcZ (Int.modEq_zero_iff_dvd.mp hz)
      (by omega) hphi

/-- C8.  Tick pattern alignment: in both designs, for every engine state —
any displacement sign, any magnification — with a nonempty pattern, positive
unit length and nonzero unit value, every tick mark of the built view model
whose value is `0` has pattern index `0`. -/
theorem c8_pattern_alignment :
    (∀ (nl : Periodic.NumberLine) (len : ℚ),
      0 < nl.options.pattern.length → 0 < nl._unitLength → nl._unitValue ≠ 0 →
      ∀ tm ∈ (Periodic.buildViewModel nl len).tickMarks, tm.value = 0 →
        tm.patternIndex = 0) ∧
    (∀ (nl : Subdivision.NumberLine) (len : ℚ),
      0 < nl.options.pattern.length →
      0 < (Subdivision.computeScale nl)._unitLength →
      (Subdivision.computeScale nl)._unitValue ≠ 0 →
      ∀ tm ∈ (Subdivision.buildViewModel nl len).tickMarks, tm.value = 0 →
        tm.patternIndex = 0) :=
  ⟨periodic_pattern_alignment, subdivision_pattern_alignment⟩

/-- Witness for C8: the origin tick of a one-tick view model in each design
(engine `nlA` over length `5`, engine `nlS1` over length `15`). -/
theorem c8_witness :
    ((⟨3, 0, 0, 0⟩ : TickMark) ∈ (Periodic.buildViewModel nlA 5).tickMarks ∧
      (⟨3, 0, 0, 0⟩ : TickMark).patternIndex = 0) ∧
    ((⟨3, 0, 0, 0⟩ : TickMark) ∈ (Subdivision.buildViewModel nlS1 15).tickMarks ∧
      (⟨3, 0, 0, 0⟩ : TickMark).patternIndex = 0) := by
  have hmem1 : (⟨3, 0, 0, 0⟩ : TickMark) ∈ (Periodic.buildViewModel nlA 5).tickMarks := by
    norm_num [Periodic.buildViewModel, Periodic.ticksLoop, Periodic.NumberLine.tickCount,
      nlA, p10, show Int.tmod 0 10 = 0 from by decide]
  have hmem2 : (⟨3, 0, 0, 0⟩ : TickMark) ∈ (Subdivision.buildViewModel nlS1 15).tickMarks := by
    norm_num [Subdivision.buildViewModel, Subdivision.ticksLoop, Subdivision.computeScale,
      Subdivision.unitLengthOf, Subdivision.unitValueOf, Subdivision.unitScaleCategoryOf,
      Subdivision.valueAt, Subdivision.isActuallyZero,
      nlS1, p10, show Int.tmod 0 10 = 0 from by decide]
  refine ⟨⟨hmem1, ?_⟩, ⟨hmem2, ?_⟩⟩
  · exact c8_pattern_alignment.1 nlA 5 (by norm_num [nlA, p10]) (by norm_num [nlA])
      (by norm_num [nlA]) _ hmem1 rfl
  · exact c8_pattern_alignment.2 nlS1 15 (by norm_num [nlS1, p10])
      (by norm_num [Subdivision.computeScale, Subdivision.unitLengthOf,
        Subdivision.unitValueOf, Subdivision.unitScaleCategoryOf, nlS1])
      (by norm_num [Subdivision.computeScale, Subdivision.unitLengthOf,
        Subdivision.unitValueOf, Subdivision.unitScaleCategoryOf, nlS1]) _ hmem2 rfl

/-- C6 (amended).  Whenever `strechToFit` returns `false`, the magnification,
unit length and unit value are exactly unchanged, but the displacement has
already been reset to `0` (the source zeroes it before the reachability
check), so the operation is not atomic on failure. -/
theorem c6_strechToFit_false_state :
    ∀ (nl : Subdivision.NumberLine) (fv L : ℚ) (b : Bool)
      (nl' : Subdivision.NumberLine),
      Subdivision.strechToFit nl fv L = Except.ok (b, nl') → b = false →
      nl'._magnification = nl._magnification ∧ nl'._unitLength = nl._unitLength ∧
      nl'._unitValue = nl._unitValue ∧ nl'._displacement = 0 := by
  intro nl fv L b nl' h hb
  subst hb
  simp only [Subdivision.strechToFit] at h
  split at h
  · exact Except.noConfusion h
  · split at h
    · simp only [Except.ok.injEq, Prod.mk.injEq] at h
      exact Bool.noConfusion h.1
    · split at h
      · simp only [Except.ok.injEq, Prod.mk.injEq] at h
        exact Bool.noConfusion h.1
      · split at h
        · simp only [Except.ok.injEq, Prod.mk.injEq] at h
          exact Bool.noConfusion h.1
        · split at h
          · split at h
            · simp only [Except.ok.injEq, Prod.mk.injEq] at h
              exact Bool.noConfusion h.1
            · simp only [Except.ok.injEq, Prod.mk.injEq] at h
              rw [← h.2]
              exact ⟨rfl, rfl, rfl, rfl⟩
          · simp only [Except.ok.injEq, Prod.mk.injEq] at h
            rw [← h.2]
            exact ⟨rfl, rfl, rfl, rfl⟩

/-- Witness for C6 at the concrete failing stretch on `nlS2`. -/
theorem c6_witness :
    Subdivision.strechToFit nlS2 300 100 =
      Except.ok (false, { nlS2 with _displacement := 0 }) ∧
    ({ nlS2 with _displacement := 0 } : Subdivision.NumberLine)._magnification =
      nlS2._magnification ∧
    ({ nlS2 with _displacement := 0 } : Subdivision.NumberLine)._unitLength =
      nlS2._unitLength ∧
    ({ nlS2 with _displacement := 0 } : Subdivision.NumberLine)._unitValue =
      nlS2._unitValue ∧
    ({ nlS2 with _displacement := 0 } : Subdivision.NumberLine)._displacement = 0 := by
  have h : Subdivision.strechToFit nlS2 300 100 =
      Except.ok (false, { nlS2 with _displacement := 0 }) := by
    norm_num [Subdivision.strechToFit, Subdivision.strechToFitScan,
      Subdivision.withinBreakpointRange, Subdivision.lastFalloutValue,
      List.range_succ, nlS2, List.cons_ne_nil]
    decide
  exact ⟨h, c6_strechToFit_false_state nlS2 300 100 false _ h rfl⟩

/-- Witness for C10 at the concrete configuration `optsB`. -/
theorem c10_witness :
    (Periodic.create optsB).toOption.isSome = true ∧
    Periodic.create optsB =
      Periodic.create { optsB with zoomPeriod := some 10, zoomFactor := some 1 } :=
  c10_zoom_defaults optsB rfl rfl (by norm_num [optsB])

end NumberLineModel
